import Mathlib

/-!
# VitaOS (LifeOS) — temporal progress and scheduling engine

A shallow embedding of `src/app.js` and proofs about it.

Modelling conventions

* A JavaScript `Date` is its time value: `some t` with `t` the number of
  milliseconds since the epoch, or `none` for an Invalid Date (time value NaN).
  The local time zone is taken to have a constant offset, fixed to zero, so
  local calendar fields are the ECMAScript functions `Day`, `YearFromTime`,
  `MonthFromTime`, `DateFromTime`, `WeekDay` of the time value itself.  The
  range limit of the time value (8.64e15 ms either side of the epoch) is not
  modelled; the statements about due dates are for four-digit years, which lie
  well inside it.
* A JavaScript number that is used as an integer is an `Int`; `none` stands
  for NaN where a NaN can arise.
* Strings are Lean strings, handled through their character lists.
* `new Date()` / `Date.now()` is a parameter `now` of the function that reads
  the clock; `uid()` is a parameter as well.
-/

namespace VitaOS

/-! ## Calendar arithmetic of the platform (ECMAScript time values) -/

/-- Milliseconds in one day: `24 * 60 * 60 * 1000`. -/
def msPerDay : Int := 24 * 60 * 60 * 1000

/-- ECMAScript `Day(t)`: the day number of a time value. -/
def Day (t : Int) : Int := t / msPerDay

/-- ECMAScript `DayFromYear(y)`: day number of the first day of year `y`. -/
def DayFromYear (y : Int) : Int :=
  365 * (y - 1970) + (y - 1969) / 4 - (y - 1901) / 100 + (y - 1601) / 400

/-- ECMAScript `InLeapYear`, as 0 or 1, from the year. -/
def leapOfYear (y : Int) : Int :=
  if y % 4 ≠ 0 then 0 else if y % 100 ≠ 0 then 1 else if y % 400 ≠ 0 then 0 else 1

/-- ECMAScript `YearFromTime`, on day numbers: the largest year `y` with
`DayFromYear y ≤ n`.  Computed from the estimate `1970 + floor(400 n / 146097)`,
which is off by at most one. -/
def yearFromDay (n : Int) : Int :=
  let y := 1970 + (400 * n) / 146097
  if DayFromYear (y + 1) ≤ n then y + 1
  else if DayFromYear y ≤ n then y
  else y - 1

/-- Day number of the first day of month `m` (0 = January) within its year,
for leap flag `l`: the boundaries of the ECMAScript `MonthFromTime` table. -/
def monthStart (m : Int) (l : Int) : Int :=
  if m ≤ 0 then 0
  else if m = 1 then 31
  else if m = 2 then 59 + l
  else if m = 3 then 90 + l
  else if m = 4 then 120 + l
  else if m = 5 then 151 + l
  else if m = 6 then 181 + l
  else if m = 7 then 212 + l
  else if m = 8 then 243 + l
  else if m = 9 then 273 + l
  else if m = 10 then 304 + l
  else 334 + l

/-- ECMAScript `MonthFromTime` from the day within the year `d` and leap flag. -/
def monthOfDayInYear (d : Int) (l : Int) : Int :=
  if d < 31 then 0
  else if d < 59 + l then 1
  else if d < 90 + l then 2
  else if d < 120 + l then 3
  else if d < 151 + l then 4
  else if d < 181 + l then 5
  else if d < 212 + l then 6
  else if d < 243 + l then 7
  else if d < 273 + l then 8
  else if d < 304 + l then 9
  else if d < 334 + l then 10
  else 11

/-- `YearFromTime(t)`. -/
def YearFromTime (t : Int) : Int := yearFromDay (Day t)

/-- `DayWithinYear(t)`. -/
def DayWithinYear (t : Int) : Int := Day t - DayFromYear (YearFromTime t)

/-- `MonthFromTime(t)`, 0 = January. -/
def MonthFromTime (t : Int) : Int :=
  monthOfDayInYear (DayWithinYear t) (leapOfYear (YearFromTime t))

/-- `DateFromTime(t)`: day of the month, from 1. -/
def DateFromTime (t : Int) : Int :=
  DayWithinYear t - monthStart (MonthFromTime t) (leapOfYear (YearFromTime t)) + 1

/-- `WeekDay(t)`: 0 = Sunday. -/
def WeekDay (t : Int) : Int := (Day t + 4) % 7

/-- ECMAScript `MakeDay(year, month, date)` for integral arguments. -/
def MakeDay (year month date : Int) : Int :=
  let ym := year + month / 12
  let mn := month % 12
  DayFromYear ym + monthStart mn (leapOfYear ym) + date - 1

/-! ## JavaScript `Date` objects -/

/-- A `Date` object: its time value, `none` for an Invalid Date. -/
abbrev JSDate := Option Int

/-- `d.getFullYear()`. -/
def getFullYear (d : JSDate) : Option Int := d.map YearFromTime
/-- `d.getMonth()`. -/
def getMonth (d : JSDate) : Option Int := d.map MonthFromTime
/-- `d.getDate()`. -/
def getDate (d : JSDate) : Option Int := d.map DateFromTime
/-- `d.getDay()`. -/
def getDay (d : JSDate) : Option Int := d.map WeekDay

/-- `d.setHours(0, 0, 0, 0)`: the same day at midnight. -/
def setHoursZero (d : JSDate) : JSDate := d.map (fun t => Day t * msPerDay)

/-- `d.setDate(v)`: `MakeDate(MakeDay(year, month, v), TimeWithinDay(t))`;
an Invalid Date stays invalid and a NaN argument makes the date invalid. -/
def setDate (d : JSDate) (v : Option Int) : JSDate :=
  match d, v with
  | some t, some dt =>
    some (MakeDay (YearFromTime t) (MonthFromTime t) dt * msPerDay + t % msPerDay)
  | _, _ => none

/-- `new Date(y, m, d)` with numeric arguments: a year from 0 to 99 means
1900 + year; any NaN argument gives an Invalid Date. -/
def newDateYMD (y m d : Option Int) : JSDate :=
  match y, m, d with
  | some y, some m, some d =>
    let yr := if 0 ≤ y ∧ y ≤ 99 then 1900 + y else y
    some (MakeDay yr m d * msPerDay)
  | _, _, _ => none

/-! ## Numbers and strings -/

/-- The character of a decimal digit. -/
def digitChar (d : Nat) : Char := Char.ofNat (48 + d)

/-- Decimal digits of a natural number, most significant first, with `fuel`
bounding the number of digits. -/
def natDigitsAux : Nat → Nat → List Char
  | 0, n => [digitChar (n % 10)]
  | fuel + 1, n =>
    if n < 10 then [digitChar n] else natDigitsAux fuel (n / 10) ++ [digitChar (n % 10)]

/-- Decimal digits of a natural number. -/
def natDigits (n : Nat) : List Char := natDigitsAux n n

/-- `String(n)` for an integral number: decimal digits, `-` in front of a
negative number. -/
def numToChars (n : Int) : List Char :=
  if n < 0 then '-' :: natDigits n.natAbs else natDigits n.natAbs

/-- `String(x)` for a number that may be NaN. -/
def numberToChars : Option Int → List Char
  | some n => numToChars n
  | none => ['N', 'a', 'N']

/-- `pad2(n)`: `String(n).padStart(2, "0")`. -/
def pad2 (n : Option Int) : List Char :=
  let s := numberToChars n
  if s.length < 2 then List.replicate (2 - s.length) '0' ++ s else s

/-- Value of a decimal digit character, if it is one. -/
def digitVal (c : Char) : Option Nat :=
  if 48 ≤ c.toNat ∧ c.toNat ≤ 57 then some (c.toNat - 48) else none

/-- Reads a run of decimal digits, most significant first. -/
def readDigits : Nat → List Char → Option Nat
  | acc, [] => some acc
  | acc, c :: cs =>
    match digitVal c with
    | some v => readDigits (10 * acc + v) cs
    | none => none

/-- `Number(s)` on the strings a date field can hold: the empty string is 0 and
a run of decimal digits is its value.  Every other string is taken to NaN;
JavaScript also reads signs, blanks, fractions, exponents and radix prefixes,
which no date string written by this program contains. -/
def jsNumber (s : List Char) : Option Int :=
  (readDigits 0 s).map Int.ofNat

/-- `s.split("-")` on character lists: `splitDashAux cur rest` carries the
field being read in `cur` (reversed). -/
def splitDashAux : List Char → List Char → List (List Char)
  | cur, [] => [cur.reverse]
  | cur, c :: cs =>
    if c = '-' then cur.reverse :: splitDashAux [] cs else splitDashAux (c :: cur) cs

/-- `s.split("-")`. -/
def splitDash (s : List Char) : List (List Char) := splitDashAux [] s

/-! ## Dates (`src/app.js`, lines 14-50) -/

/-- `toISODate(d)`. -/
def toISODate (d : JSDate) : String :=
  let x := setHoursZero d
  String.mk (numberToChars (getFullYear x) ++ '-' :: pad2 ((getMonth x).map (· + 1))
    ++ '-' :: pad2 (getDate x))

/-- `parseISODate(s)`: fields beyond the third are ignored, a missing field is
`undefined` and makes the date invalid. -/
def parseISODate (s : String) : JSDate :=
  match (splitDash s.data).map jsNumber with
  | y :: m :: d :: _ => setHoursZero (newDateYMD y (m.map (· - 1)) d)
  | _ => none

/-- `startOfWeek(d)`: Monday start. -/
def startOfWeek (d : JSDate) : JSDate :=
  let dt := setHoursZero d
  let day := (getDay dt).map (fun w => (w + 6) % 7)
  setDate dt (do let a ← getDate dt; let b ← day; pure (a - b))

/-- `endOfWeek(d)`. -/
def endOfWeek (d : JSDate) : JSDate :=
  let s := startOfWeek d
  setDate s ((getDate s).map (· + 6))

/-- `Math.round(x / 86400000)` for an integral `x`: the nearest integer, a tie
going up. -/
def roundDays (x : Int) : Int := (2 * x + msPerDay) / (2 * msPerDay)

/-- `daysBetween(a, b)`; `none` is NaN. -/
def daysBetween (a b : JSDate) : Option Int := do
  let A ← setHoursZero a
  let B ← setHoursZero b
  pure (roundDays (B - A))

/-! ## State (`src/app.js`, lines 63-97) -/

/-- A habit; `history` is `none` when the object has no `history` property,
otherwise the entries of the object, the first entry for a key being the one
that is read. -/
structure Habit where
  id : String
  title : String
  history : Option (List (String × Bool))
deriving DecidableEq, Repr

/-- An assignment record `{ id, title, course, dueISO, done }`. -/
structure Assignment where
  id : String
  title : String
  course : String
  dueISO : String
  done : Bool
deriving DecidableEq, Repr

/-- A focus session record `{ id, isoDate, minutes, endedAtISO }`; `endedAt`
is the instant whose ISO rendering `endedAtISO` holds. -/
structure FocusSession where
  id : String
  isoDate : String
  minutes : Int
  endedAt : Int
deriving DecidableEq, Repr

/-- The state tree in the shape the program works on. -/
structure State where
  theme : String
  palette : String
  studyGoal : Int
  studyLog : Option (List (String × Int))
  focusSessions : List FocusSession
  habits : List Habit
  assignments : List Assignment
deriving DecidableEq, Repr

/-- A parsed JSON value, as `JSON.parse` returns it. -/
inductive JSON where
  | null : JSON
  | bool (b : Bool) : JSON
  | num (n : ℚ) : JSON
  | str (s : String) : JSON
  | arr (items : List JSON) : JSON
  | obj (fields : List (String × JSON)) : JSON

/-- The storage key `KEY`. -/
def KEY : String := "lifeos_v1"

/-- `x || fallback` for a string that may be `null`: the empty string is falsy. -/
def orElseStr (x : Option String) (fallback : String) : String :=
  match x with
  | some s => if s = "" then fallback else s
  | none => fallback

/-- The default tree built at the end of `loadState`. -/
def defaultTree (getItem : String → Option String) (now : Int) : JSON :=
  let today := toISODate (some now)
  JSON.obj [
    ("theme", JSON.str (orElseStr (getItem "lifeos_theme") "light")),
    ("palette", JSON.str (orElseStr (getItem "lifeos_palette") "ocean")),
    ("studyGoal", JSON.num 120),
    ("studyLog", JSON.obj [(today, JSON.num 0)]),
    ("focusSessions", JSON.arr []),
    ("habits", JSON.arr []),
    ("assignments", JSON.arr [])]

/-- `loadState()`.  `jsonParse` is `JSON.parse` (`none` when it throws),
`getItem` is `localStorage.getItem` (`none` for `null`). -/
def loadState (jsonParse : String → Option JSON) (getItem : String → Option String)
    (now : Int) : JSON :=
  match getItem KEY with
  | some raw =>
    if raw ≠ "" then
      match jsonParse raw with
      | some tree => tree
      | none => defaultTree getItem now
    else defaultTree getItem now
  | none => defaultTree getItem now

/-! ## Habits (`src/app.js`, lines 231-264) -/

/-- `!!habit.history?.[iso]`. -/
def habitDoneToday (habit : Habit) (iso : String) : Bool :=
  match habit.history with
  | some entries => (entries.lookup iso).getD false
  | none => false

/-- The loop of `computeStreak`: `left` iterations remain, `i` is the loop
variable and `streak` the counter; the `else break` returns the counter.  The
callback of `every`, `h => !!h.history?.[iso]`, has the body of
`habitDoneToday`. -/
def streakLoop (habits : List Habit) (today : JSDate) : Nat → Nat → Nat → Nat
  | 0, _, streak => streak
  | left + 1, i, streak =>
    let d := setDate today ((getDate today).map (· - (i : Int)))
    let iso := toISODate d
    if habits.all (fun h => habitDoneToday h iso) then
      streakLoop habits today left (i + 1) (streak + 1)
    else streak

/-- `computeStreak()`. -/
def computeStreak (st : State) (now : Int) : Nat :=
  if st.habits.length = 0 then 0
  else
    let today := parseISODate (toISODate (some now))
    streakLoop st.habits today 365 0 0

/-! ## Assignments (`src/app.js`, lines 266-315) -/

/-- `a - b` on dates: the difference of the time values, NaN if either is
invalid. -/
def dateDiff (a b : JSDate) : Option Int := do
  let x ← a
  let y ← b
  pure (x - y)

/-- `a < b` on dates; false when either is invalid. -/
def dateLt (a b : JSDate) : Bool :=
  match a, b with
  | some x, some y => decide (x < y)
  | _, _ => false

/-- `a <= b` on dates; false when either is invalid. -/
def dateLe (a b : JSDate) : Bool :=
  match a, b with
  | some x, some y => decide (x ≤ y)
  | _, _ => false

/-- Insertion step of the sort: `x` stood before every element of the list
and stays in front of `y` unless the comparator puts `y` first
(`cmp x y > 0`); a NaN result counts as 0. -/
def sortInsert {α : Type} (cmp : α → α → Option Int) (x : α) : List α → List α
  | [] => [x]
  | y :: ys => if 0 < (cmp x y).getD 0 then y :: sortInsert cmp x ys else x :: y :: ys

/-- `Array.prototype.sort(cmp)` for a consistent comparator: the stable sort
(ECMAScript 2019), here by insertion from the right.  The language fixes the
result only when the comparator is consistent; the comparators of this program
are consistent exactly when every due date they compare parses to a valid date.
When a due date does not parse the comparator returns NaN, the order is left to
the engine, and this definition describes no engine in particular: the
statements below about the order of a sorted list assume due dates that
parse. -/
def jsSort {α : Type} (cmp : α → α → Option Int) : List α → List α
  | [] => []
  | x :: xs => sortInsert cmp x (jsSort cmp xs)

/-- The comparator of `sortedAssignments`. -/
def assignmentCompare (a b : Assignment) : Option Int :=
  if a.done ≠ b.done then some (if a.done then 1 else -1)
  else dateDiff (parseISODate a.dueISO) (parseISODate b.dueISO)

/-- `sortedAssignments()`: the returned array and the state after the call.
`slice()` makes a fresh array and `sort` works in place on that copy, so
`state.assignments` is not written. -/
def sortedAssignments (st : State) : List Assignment × State :=
  let copy := st.assignments
  (jsSort assignmentCompare copy, st)

/-- The counters `{ overdue, week }`. -/
structure AssignmentStats where
  overdue : Nat
  week : Nat
deriving DecidableEq, Repr

/-- One iteration of the loop of `getAssignmentStats`. -/
def statsStep (today weekStart weekEnd : JSDate) (acc : AssignmentStats) (a : Assignment) :
    AssignmentStats :=
  if a.done then acc
  else
    let due := parseISODate a.dueISO
    let acc1 := if dateLt due today then { acc with overdue := acc.overdue + 1 } else acc
    if dateLe weekStart due && dateLe due weekEnd then { acc1 with week := acc1.week + 1 }
    else acc1

/-- `getAssignmentStats()`. -/
def getAssignmentStats (st : State) (now : Int) : AssignmentStats :=
  let todayISO := toISODate (some now)
  let today := parseISODate todayISO
  let weekStart := startOfWeek today
  let weekEnd := endOfWeek today
  st.assignments.foldl (statsStep today weekStart weekEnd) { overdue := 0, week := 0 }

/-- The comparator of `nextUpAssignment`. -/
def dueCompare (a b : Assignment) : Option Int :=
  dateDiff (parseISODate a.dueISO) (parseISODate b.dueISO)

/-- The object `{ ...a, diffDays }`; `diffDays` is `none` for NaN. -/
structure NextUp where
  assignment : Assignment
  diffDays : Option Int
deriving DecidableEq, Repr

/-- `nextUpAssignment()`; `none` is `null`. -/
def nextUpAssignment (st : State) (now : Int) : Option NextUp :=
  let today := parseISODate (toISODate (some now))
  let pending := jsSort dueCompare (st.assignments.filter (fun a => !a.done))
  match pending with
  | [] => none
  | a :: _ =>
    let due := parseISODate a.dueISO
    let diff := daysBetween today due
    some { assignment := a, diffDays := diff }

/-! ## Study log (`src/app.js`, lines 317-326) -/

/-- `state.studyLog?.[isoDate] || 0`. -/
def getStudyMinutes (st : State) (isoDate : String) : Int :=
  match st.studyLog with
  | some log => (log.lookup isoDate).getD 0
  | none => 0

/-- `obj[key] = v`: the entry is replaced where it stands, or added. -/
def objSet {β : Type} (key : String) (v : β) : List (String × β) → List (String × β)
  | [] => [(key, v)]
  | (k, w) :: rest => if k = key then (k, v) :: rest else (k, w) :: objSet key v rest

/-- `addStudyMinutes(isoDate, minutes)`, on the state tree (the write to
storage is not part of the tree). -/
def addStudyMinutes (st : State) (isoDate : String) (minutes : Int) : State :=
  let log := st.studyLog.getD []
  { st with studyLog := some (objSet isoDate ((log.lookup isoDate).getD 0 + minutes) log) }

/-! ## Add-assignment form (`src/app.js`, lines 399-411) -/

/-- White space and line terminators, the characters `String.prototype.trim`
removes. -/
def jsIsWhiteSpace (c : Char) : Bool :=
  c.toNat = 9 || c.toNat = 10 || c.toNat = 11 || c.toNat = 12 || c.toNat = 13 ||
  c.toNat = 32 || c.toNat = 160 || c.toNat = 5760 ||
  (8192 ≤ c.toNat && c.toNat ≤ 8202) || c.toNat = 8232 || c.toNat = 8233 ||
  c.toNat = 8239 || c.toNat = 8287 || c.toNat = 12288 || c.toNat = 65279

/-- `s.trim()`. -/
def jsTrim (s : String) : String :=
  String.mk ((s.data.dropWhile jsIsWhiteSpace).reverse.dropWhile jsIsWhiteSpace).reverse

/-- `String(fd.get(name) || "").trim()` for a text field (`none` is `null`). -/
def formField (v : Option String) : String := jsTrim (v.getD "")

/-- The `onsubmit` handler of the add-assignment sheet, on the state tree:
`uid` is the value `uid()` returns, the other arguments are the form fields. -/
def submitAddAssignment (st : State) (uid : String) (titleField courseField dueField : Option String) :
    State :=
  let title := formField titleField
  let course := formField courseField
  let dueISO := formField dueField
  if title = "" ∨ dueISO = "" then st
  else
    { st with assignments :=
        { id := uid, title := title, course := course, dueISO := dueISO, done := false }
          :: st.assignments }

/-! ## Focus timer (`src/app.js`, lines 435-495 and 764-783) -/

/-- The object `timerState`; `none` is `null`. -/
structure TimerState where
  minutes : Int
  running : Bool
  endAt : Option Int
  intervalId : Option Nat
deriving DecidableEq, Repr

/-- What the timer code reads and writes: the state tree, `timerState`, the
intervals registered with the host and not cleared (each runs the tick callback
of `startTimer`), the next id `setInterval` hands out, and the text of the
toggle button. -/
structure World where
  state : State
  timer : TimerState
  activeIntervals : List Nat
  nextIntervalId : Nat
  toggleText : String
deriving DecidableEq, Repr

/-- `clearInterval(id)`; clearing `null` does nothing. -/
def clearInterval (w : World) (id : Option Nat) : World :=
  match id with
  | some i => { w with activeIntervals := w.activeIntervals.filter (fun j => j ≠ i) }
  | none => w

/-- `stopTimer()`; an interval id is truthy when it is not 0. -/
def stopTimer (w : World) : World :=
  let w1 := { w with timer := { w.timer with running := false, endAt := none } }
  let w2 :=
    match w1.timer.intervalId with
    | some i => if i ≠ 0 then clearInterval w1 (some i) else w1
    | none => w1
  { w2 with timer := { w2.timer with intervalId := none }, toggleText := "Start" }

/-- `startTimer()` at instant `now`. -/
def startTimer (w : World) (now : Int) : World :=
  { w with
    timer := { w.timer with
      running := true,
      endAt := some (now + w.timer.minutes * 60 * 1000),
      intervalId := some w.nextIntervalId },
    activeIntervals := w.nextIntervalId :: w.activeIntervals,
    nextIntervalId := w.nextIntervalId + 1,
    toggleText := "Stop" }

/-- The callback given to `setInterval` in `startTimer`, run at instant `now`;
`uid` is the value `uid()` returns.  A `null` end instant counts as 0 in the
subtraction. -/
def timerTick (w : World) (now : Int) (uid : String) : World :=
  let left := w.timer.endAt.getD 0 - now
  if left ≤ 0 then
    let w1 := clearInterval w w.timer.intervalId
    let w2 := { w1 with
      timer := { w1.timer with intervalId := none, running := false },
      toggleText := "Reset" }
    let iso := toISODate (some now)
    let st1 := addStudyMinutes w2.state iso w2.timer.minutes
    let st2 := { st1 with
      focusSessions :=
        { id := uid, isoDate := iso, minutes := w2.timer.minutes, endedAt := now }
          :: st1.focusSessions }
    { w2 with state := st2 }
  else w

/-- The host firing interval `id`: the callback runs only while the interval is
registered. -/
def fireInterval (w : World) (id : Nat) (now : Int) (uid : String) : World :=
  if id ∈ w.activeIntervals then timerTick w now uid else w

/-- A run of interval firings `(id, now, uid)`, in order. -/
def fireAll (w : World) (ticks : List (Nat × Int × String)) : World :=
  ticks.foldl (fun w tk => fireInterval w tk.1 tk.2.1 tk.2.2) w

/-- The click handler of the toggle button. -/
def timerToggleClick (w : World) (now : Int) : World :=
  if w.toggleText = "Reset" then stopTimer w
  else if w.timer.running then stopTimer w
  else startTimer w now

/-- The click handler of a timer-length button. -/
def timerLengthClick (w : World) (len : Int) : World :=
  if w.timer.running then w else { w with timer := { w.timer with minutes := len } }

/-! ## Urgency texts (`src/app.js`, lines 542-561 and 598-624) -/

/-- `x < k` on numbers; false for NaN. -/
def numLt (x : Option Int) (k : Int) : Bool :=
  match x with
  | some n => decide (n < k)
  | none => false

/-- `x === k` on numbers; false for NaN. -/
def numEq (x : Option Int) (k : Int) : Bool :=
  match x with
  | some n => decide (n = k)
  | none => false

/-- `Math.abs(x)`. -/
def mathAbs (x : Option Int) : Option Int := x.map (fun n => (n.natAbs : Int))

/-- The texts `renderAssignmentItem` computes for an item. -/
structure ItemView where
  sub : String
  badgeText : String
  badgeClass : String
deriving DecidableEq, Repr

/-- The texts of `renderAssignmentItem(a)`; `formatFriendlyDate` depends on the
locale of the host and is a parameter. -/
def renderAssignmentItem (formatFriendlyDate : String → String) (a : Assignment) (now : Int) :
    ItemView :=
  let today := parseISODate (toISODate (some now))
  let due := parseISODate a.dueISO
  let diff := daysBetween today due
  let badgeText := formatFriendlyDate a.dueISO
  let sub := if a.course ≠ "" then a.course else "Assignment"
  if numLt diff 0 then
    { sub := sub ++ " • overdue by " ++ String.mk (numberToChars (mathAbs diff)) ++ " day(s)",
      badgeText := "Late", badgeClass := "badge bad" }
  else if numEq diff 0 then
    { sub := sub ++ " • due today", badgeText := "Today", badgeClass := "badge warn" }
  else if numEq diff 1 then
    { sub := sub ++ " • due tomorrow", badgeText := "Tomorrow", badgeClass := "badge warn" }
  else
    { sub := sub ++ " • due in " ++ String.mk (numberToChars diff) ++ " day(s)",
      badgeText := badgeText, badgeClass := "badge" }

/-- The texts of the next-up card of `renderToday`. -/
structure NextUpView where
  title : String
  meta : String
  badgeText : String
  badgeClass : String
deriving DecidableEq, Repr

/-- The next-up card of `renderToday`, from the value of `nextUpAssignment()`. -/
def renderNextUp (formatFriendlyDate : String → String) (next : Option NextUp) : NextUpView :=
  match next with
  | none =>
    { title := "No deadlines yet", meta := "Add an assignment to start.",
      badgeText := "—", badgeClass := "badge" }
  | some n =>
    let dueText :=
      if n.assignment.course ≠ "" then
        n.assignment.course ++ " • " ++ formatFriendlyDate n.assignment.dueISO
      else formatFriendlyDate n.assignment.dueISO
    if numLt n.diffDays 0 then
      { title := n.assignment.title,
        meta := dueText ++ " • overdue by " ++ String.mk (numberToChars (mathAbs n.diffDays))
          ++ " day(s)",
        badgeText := "Overdue", badgeClass := "badge bad" }
    else if numEq n.diffDays 0 then
      { title := n.assignment.title, meta := dueText ++ " • due today",
        badgeText := "Today", badgeClass := "badge warn" }
    else if numEq n.diffDays 1 then
      { title := n.assignment.title, meta := dueText ++ " • due tomorrow",
        badgeText := "Tomorrow", badgeClass := "badge warn" }
    else
      { title := n.assignment.title,
        meta := dueText ++ " • due in " ++ String.mk (numberToChars n.diffDays) ++ " day(s)",
        badgeText := String.mk (numberToChars n.diffDays ++ ['d']), badgeClass := "badge" }

/-! ## Habit toggle and habit ring (`src/app.js`, lines 236-244 and 515-524) -/

/-- The two statements `if (!h.history) h.history = {}` and
`h.history[iso] = !h.history[iso]` on a habit. -/
def toggleHabitEntry (h : Habit) (iso : String) : Habit :=
  let entries := h.history.getD []
  { h with history := some (objSet iso (!((entries.lookup iso).getD false)) entries) }

/-- The habit list after toggling the first habit with the given id (`find`
returns the first match); without a match the list is unchanged. -/
def toggleFirstHabit (habitId iso : String) : List Habit → List Habit
  | [] => []
  | h :: rest =>
    if h.id = habitId then toggleHabitEntry h iso :: rest
    else h :: toggleFirstHabit habitId iso rest

/-- `toggleHabitToday(habitId)`, on the state tree. -/
def toggleHabitToday (st : State) (habitId : String) (now : Int) : State :=
  let isoToday := toISODate (some now)
  { st with habits := toggleFirstHabit habitId isoToday st.habits }

/-- What the habit part of `renderToday` computes. -/
structure HabitRing where
  totalHabits : Nat
  doneHabits : Nat
  pctHabits : ℚ
  hint : String
deriving DecidableEq

/-- The habit part of `renderToday`.  The quotient is taken in the rationals,
in place of the floating-point numbers of the host. -/
def renderHabitRing (st : State) (now : Int) : HabitRing :=
  let isoToday := toISODate (some now)
  let totalHabits := st.habits.length
  let doneHabits := (st.habits.filter (fun h => habitDoneToday h isoToday)).length
  let pctHabits : ℚ :=
    if totalHabits ≠ 0 then ((doneHabits : ℚ) / (totalHabits : ℚ)) * 100 else 0
  { totalHabits := totalHabits,
    doneHabits := doneHabits,
    pctHabits := pctHabits,
    hint :=
      if totalHabits = 0 then "Add your first habit."
      else if pctHabits ≥ 100 then "Perfect day."
      else if pctHabits ≥ 60 then "Keep rolling."
      else "Start with one." }

/-! ## Runs of submissions and reachable worlds -/

/-- One submission of the add-assignment form: the value `uid()` returns and the
three form fields. -/
structure AddRequest where
  uid : String
  title : Option String
  course : Option String
  due : Option String
deriving DecidableEq, Repr

/-- The state after a run of submissions of the add-assignment form, in order. -/
def submitAll (st : State) (reqs : List AddRequest) : State :=
  reqs.foldl (fun s r => submitAddAssignment s r.uid r.title r.course r.due) st

/-- A fresh store: the collections of the default tree. -/
def emptyState : State :=
  { theme := "light", palette := "ocean", studyGoal := 120, studyLog := some [],
    focusSessions := [], habits := [], assignments := [] }

/-- The worlds the page can be in: it starts at rest with no interval
registered (interval ids handed out by the host are positive), and then the
toggle button is clicked, the host fires an interval, a timer-length button is
clicked, or some other handler rewrites the state tree. -/
inductive Reachable : World → Prop where
  | init (st : State) (minutes : Int) (nextId : Nat) (label : String) (h : 0 < nextId) :
      Reachable
        { state := st,
          timer := { minutes := minutes, running := false, endAt := none, intervalId := none },
          activeIntervals := [], nextIntervalId := nextId, toggleText := label }
  | toggle (w : World) (now : Int) : Reachable w → Reachable (timerToggleClick w now)
  | fire (w : World) (id : Nat) (now : Int) (uid : String) :
      Reachable w → Reachable (fireInterval w id now uid)
  | length (w : World) (len : Int) : Reachable w → Reachable (timerLengthClick w len)
  | store (w : World) (st : State) : Reachable w → Reachable { w with state := st }

/-! ## Vocabulary of the specification -/

/-- Number of days of month `m` (1 = January) of year `y` in the Gregorian
calendar. -/
def daysInMonth (y m : Int) : Int :=
  if m = 2 then 28 + leapOfYear y
  else if m = 4 ∨ m = 6 ∨ m = 9 ∨ m = 11 then 30
  else 31

/-- The text `YYYY-MM-DD` written with the given decimal digits. -/
def isoOfDigits (y1 y2 y3 y4 m1 m2 d1 d2 : Nat) : String :=
  String.mk [digitChar y1, digitChar y2, digitChar y3, digitChar y4, '-',
    digitChar m1, digitChar m2, '-', digitChar d1, digitChar d2]

/-- A syntactically valid ISO date of year `y`: `s` is `YYYY-MM-DD` with a
four-digit year, a month from 01 to 12 and a day valid for that month. -/
def ValidISODateOfYear (s : String) (y : Nat) : Prop :=
  ∃ y1 y2 y3 y4 m1 m2 d1 d2 : Nat,
    y1 ≤ 9 ∧ y2 ≤ 9 ∧ y3 ≤ 9 ∧ y4 ≤ 9 ∧ m1 ≤ 9 ∧ m2 ≤ 9 ∧ d1 ≤ 9 ∧ d2 ≤ 9 ∧
    s = isoOfDigits y1 y2 y3 y4 m1 m2 d1 d2 ∧
    y = 1000 * y1 + 100 * y2 + 10 * y3 + y4 ∧
    1 ≤ 10 * m1 + m2 ∧ 10 * m1 + m2 ≤ 12 ∧
    1 ≤ 10 * d1 + d2 ∧
    ((10 * d1 + d2 : Nat) : Int) ≤ daysInMonth (y : Int) ((10 * m1 + m2 : Nat) : Int)

/-- A syntactically valid ISO date `YYYY-MM-DD`. -/
def ValidISODate (s : String) : Prop := ∃ y, ValidISODateOfYear s y

/-- Today as a date: midnight of the day of the instant `now`. -/
def midnightOf (now : Int) : JSDate := some (Day now * msPerDay)

/-- The ISO date of the calendar day `i` days before the day of instant `now`. -/
def isoDaysAgo (now : Int) (i : Nat) : String :=
  toISODate (some (now - (i : Int) * msPerDay))

/-- Every habit of the list has a truthy history entry for the day `iso`. -/
def AllHabitsDone (habits : List Habit) (iso : String) : Prop :=
  ∀ h ∈ habits, habitDoneToday h iso = true

/-- The due date of an assignment parses to a valid date in this model (which
leaves out the range limit of time values).  Every valid ISO date `YYYY-MM-DD`
parses; for years 0000 to 0099 the parsed date is a day of 1900 to 1999. -/
def DueDateOk (a : Assignment) : Prop := (parseISODate a.dueISO).isSome = true

/-- The order of the assignment listing: `a` may stand before `b` when `a` is
open and `b` is done, or both have the same `done` flag and `a` is due no later
than `b`. -/
def ListedBefore (a b : Assignment) : Prop :=
  (a.done = false ∧ b.done = true) ∨
  (a.done = b.done ∧ dateLe (parseISODate a.dueISO) (parseISODate b.dueISO) = true)

/-- The text `s` is the ISO date `YYYY-MM-DD` of the calendar day with year `y`,
month `m` (1 = January) and day `d`: a four-digit year, a month from 01 to 12
and a day valid for that month. -/
def IsISODate (s : String) (y m d : Nat) : Prop :=
  ∃ y1 y2 y3 y4 m1 m2 d1 d2 : Nat,
    y1 ≤ 9 ∧ y2 ≤ 9 ∧ y3 ≤ 9 ∧ y4 ≤ 9 ∧ m1 ≤ 9 ∧ m2 ≤ 9 ∧ d1 ≤ 9 ∧ d2 ≤ 9 ∧
    s = isoOfDigits y1 y2 y3 y4 m1 m2 d1 d2 ∧
    y = 1000 * y1 + 100 * y2 + 10 * y3 + y4 ∧ m = 10 * m1 + m2 ∧ d = 10 * d1 + d2 ∧
    1 ≤ m ∧ m ≤ 12 ∧ 1 ≤ d ∧ (d : Int) ≤ daysInMonth (y : Int) (m : Int)

/-- Calendar order of two days given by year, month and day: the first is on or
before the second. -/
def DayOnOrBefore (y m d y2 m2 d2 : Nat) : Prop :=
  y < y2 ∨ (y = y2 ∧ (m < m2 ∨ (m = m2 ∧ d ≤ d2)))

/-- Calendar order of two due dates: both texts are valid ISO dates and the day
`s` names is on or before the day `t` names. -/
def DueOnOrBefore (s t : String) : Prop :=
  ∃ y m d y2 m2 d2 : Nat, IsISODate s y m d ∧ IsISODate t y2 m2 d2 ∧
    DayOnOrBefore y m d y2 m2 d2

/-- The due date of an assignment is a valid ISO date `YYYY-MM-DD` of a year
from 0100 to 9999. -/
def DueDateFrom100 (a : Assignment) : Prop :=
  ∃ y m d : Nat, IsISODate a.dueISO y m d ∧ 100 ≤ y

/-- Local midnight of the calendar day with year `y`, month `m` (1 = January)
and day `d`, as a date. -/
def midnightOfDay (y m d : Nat) : JSDate :=
  some (MakeDay (y : Int) ((m : Int) - 1) (d : Int) * msPerDay)

/-- The assignment a submission adds, or `none` when the form rejects it
(empty title or empty due date). -/
def recordOf (r : AddRequest) : Option Assignment :=
  if formField r.title = "" ∨ formField r.due = "" then none
  else some { id := r.uid, title := formField r.title, course := formField r.course,
              dueISO := formField r.due, done := false }

/-- The value of property `key` of a JSON value, `none` when there is none. -/
def jsonField (key : String) : JSON → Option JSON
  | JSON.obj fields => fields.lookup key
  | _ => none

/-- Whether a JSON value is a list. -/
def jsonIsList : Option JSON → Bool
  | some (JSON.arr _) => true
  | _ => false

/-- Whether a JSON value is an object. -/
def jsonIsObject : Option JSON → Bool
  | some (JSON.obj _) => true
  | _ => false

/-- A state tree of the documented schema, as the specification words it: an
object whose `habits`, `assignments` and `focusSessions` are lists and whose
`studyLog` is an object. -/
def isStateTree (t : JSON) : Bool :=
  jsonIsList (jsonField "habits" t) && jsonIsList (jsonField "assignments" t) &&
  jsonIsList (jsonField "focusSessions" t) && jsonIsObject (jsonField "studyLog" t)

/-- What holds of the timer in every reachable world: at rest no interval is
registered; while running exactly the run's interval is, its id is not 0, the
end instant is set and the toggle button reads "Stop". -/
def TimerInv (w : World) : Prop :=
  0 < w.nextIntervalId ∧
  (w.timer.running = false → w.activeIntervals = [] ∧ w.timer.intervalId = none) ∧
  (w.timer.running = true →
    ∃ id e, id ≠ 0 ∧ w.timer.intervalId = some id ∧ w.activeIntervals = [id] ∧
      w.timer.endAt = some e ∧ w.toggleText = "Stop")

/-- A habit after its completion on the day `iso` is removed by deleting the
history entry. -/
def deleteCompletion (h : Habit) (iso : String) : Habit :=
  { h with history := h.history.map (fun entries => entries.filter (fun p => p.1 ≠ iso)) }

/-- A habit after its completion on the day `iso` is removed by setting the
history entry to `false`. -/
def clearCompletion (h : Habit) (iso : String) : Habit :=
  { h with history := some (objSet iso false (h.history.getD [])) }

/-- The habit completion ratio of the day of `now`: `pctHabits / 100`. -/
def habitCompletionRatio (st : State) (now : Int) : ℚ :=
  (renderHabitRing st now).pctHabits / 100

/-! ## Sample data -/

/-- An instant on 1970-01-03 (two days and one hour after the epoch). -/
def sampleNow : Int := 2 * 86400000 + 3600000

/-- A habit done on 1970-01-01, 1970-01-02 and 1970-01-03. -/
def sampleHabit1 : Habit :=
  { id := "h1", title := "Read",
    history := some [("1970-01-03", true), ("1970-01-02", true), ("1970-01-01", true)] }

/-- A habit done on 1970-01-02 and 1970-01-03, with a `false` entry for
1970-01-01. -/
def sampleHabit2 : Habit :=
  { id := "h2", title := "Code",
    history := some [("1970-01-03", true), ("1970-01-02", true), ("1970-01-01", false)] }

/-- A state with two habits: both done on 1970-01-03 and 1970-01-02, only the
first done on 1970-01-01. -/
def sampleHabitState : State :=
  { theme := "light", palette := "ocean", studyGoal := 120,
    studyLog := some [("1970-01-03", 0)], focusSessions := [],
    habits := [sampleHabit1, sampleHabit2],
    assignments := [] }

/-- Three assignments: one done, two open with different due dates. -/
def sampleAssignments : List Assignment :=
  [ { id := "a1", title := "Essay", course := "", dueISO := "1970-01-10", done := true },
    { id := "a2", title := "Lab", course := "Physics", dueISO := "1970-01-09", done := false },
    { id := "a3", title := "HW 3", course := "", dueISO := "1970-01-05", done := false } ]

/-- A state holding `sampleAssignments`. -/
def sampleAssignmentState : State :=
  { theme := "light", palette := "ocean", studyGoal := 120, studyLog := none,
    focusSessions := [], habits := [], assignments := sampleAssignments }

/-- An open assignment with a course, due on 1970-01-09. -/
def sampleLab : Assignment :=
  { id := "a2", title := "Lab", course := "Physics", dueISO := "1970-01-09", done := false }

/-- Two submissions with the same due date, "first" before "second". -/
def sampleRequests : List AddRequest :=
  [ { uid := "first", title := some "Essay", course := some "", due := some "1970-01-09" },
    { uid := "second", title := some "Lab", course := some "", due := some "1970-01-09" } ]

/-- Two open assignments, the first due on 0099-12-31, the second on the next
day, 0100-01-01. -/
def sampleCenturyAssignments : List Assignment :=
  [ { id := "c1", title := "Essay", course := "", dueISO := "0099-12-31", done := false },
    { id := "c2", title := "Lab", course := "", dueISO := "0100-01-01", done := false } ]

/-- A state holding `sampleCenturyAssignments`. -/
def sampleCenturyState : State :=
  { theme := "light", palette := "ocean", studyGoal := 120, studyLog := none,
    focusSessions := [], habits := [], assignments := sampleCenturyAssignments }

/-- Three submissions: "A" and "B" due on 0099-12-31, then "C" due on
0100-01-01. -/
def sampleCenturyRequests : List AddRequest :=
  [ { uid := "A", title := some "Essay", course := some "", due := some "0099-12-31" },
    { uid := "B", title := some "Lab", course := some "", due := some "0099-12-31" },
    { uid := "C", title := some "Quiz", course := some "", due := some "0100-01-01" } ]

/-- Three submissions: "x" due on 1970-01-09, then "y" and "z" due on
1970-01-05. -/
def sampleTieRequests : List AddRequest :=
  [ { uid := "x", title := some "Essay", course := some "", due := some "1970-01-09" },
    { uid := "y", title := some "Lab", course := some "", due := some "1970-01-05" },
    { uid := "z", title := some "Quiz", course := some "", due := some "1970-01-05" } ]

/-- A storage in which the key of the state holds the text `null` and nothing
else is stored. -/
def storageWithNull : String → Option String :=
  fun key => if key = KEY then some "null" else none

/-- An empty storage. -/
def storageEmpty : String → Option String := fun _ => none

/-- A world at rest: the sample store, 25 minutes selected, no interval
registered, interval ids handed out from 1. -/
def sampleWorld : World :=
  { state := emptyState,
    timer := { minutes := 25, running := false, endAt := none, intervalId := none },
    activeIntervals := [], nextIntervalId := 1, toggleText := "Start" }

/-! # Theorems -/

/-! ## Calendar -/

theorem DayFromYear_succ (y : Int) :
    DayFromYear (y + 1) = DayFromYear y + 365 + leapOfYear y := by
  unfold DayFromYear leapOfYear
  split_ifs <;> omega

theorem leapOfYear_range (y : Int) : leapOfYear y = 0 ∨ leapOfYear y = 1 := by
  unfold leapOfYear
  split_ifs <;> simp

theorem yearFromDay_spec (n : Int) :
    DayFromYear (yearFromDay n) ≤ n ∧ n < DayFromYear (yearFromDay n + 1) := by
  unfold yearFromDay
  simp only
  split_ifs with h1 h2
  · refine ⟨h1, ?_⟩
    unfold DayFromYear at *
    omega
  · exact ⟨h2, by omega⟩
  · refine ⟨?_, by simpa using (not_le.mp h2)⟩
    unfold DayFromYear at *
    omega

theorem DayFromYear_mono {a b : Int} (h : a ≤ b) : DayFromYear a ≤ DayFromYear b := by
  unfold DayFromYear
  omega

theorem msPerDay_pos : 0 < msPerDay := by decide

theorem Day_mul (n : Int) : Day (n * msPerDay) = n := by
  unfold Day
  exact Int.mul_ediv_cancel n (by decide)

theorem Day_midnight_add (n r : Int) (h0 : 0 ≤ r) (h1 : r < msPerDay) :
    Day (n * msPerDay + r) = n := by
  unfold Day msPerDay at *
  omega

theorem Day_add_days (t k : Int) : Day (t + k * msPerDay) = Day t + k := by
  unfold Day
  exact Int.add_mul_ediv_right t k (by decide)

theorem yearFromDay_unique {n y : Int} (h1 : DayFromYear y ≤ n) (h2 : n < DayFromYear (y + 1)) :
    yearFromDay n = y := by
  have hs := yearFromDay_spec n
  by_contra hne
  rcases lt_or_gt_of_ne hne with h | h
  · have := DayFromYear_mono (show yearFromDay n + 1 ≤ y by omega)
    omega
  · have := DayFromYear_mono (show y + 1 ≤ yearFromDay n by omega)
    omega

theorem DayWithinYear_range (t : Int) :
    0 ≤ DayWithinYear t ∧ DayWithinYear t < 365 + leapOfYear (YearFromTime t) := by
  have hs := yearFromDay_spec (Day t)
  have h := DayFromYear_succ (YearFromTime t)
  unfold DayWithinYear YearFromTime at *
  omega

theorem monthOfDayInYear_cases_aux (d l k : Int) (hk : monthOfDayInYear d l = k) :
    (k = 0 ∧ d < 31) ∨ (k = 1 ∧ 31 ≤ d ∧ d < 59 + l) ∨
    (k = 2 ∧ 59 + l ≤ d ∧ d < 90 + l) ∨ (k = 3 ∧ 90 + l ≤ d ∧ d < 120 + l) ∨
    (k = 4 ∧ 120 + l ≤ d ∧ d < 151 + l) ∨ (k = 5 ∧ 151 + l ≤ d ∧ d < 181 + l) ∨
    (k = 6 ∧ 181 + l ≤ d ∧ d < 212 + l) ∨ (k = 7 ∧ 212 + l ≤ d ∧ d < 243 + l) ∨
    (k = 8 ∧ 243 + l ≤ d ∧ d < 273 + l) ∨ (k = 9 ∧ 273 + l ≤ d ∧ d < 304 + l) ∨
    (k = 10 ∧ 304 + l ≤ d ∧ d < 334 + l) ∨ (k = 11 ∧ 334 + l ≤ d) := by
  unfold monthOfDayInYear at hk
  by_cases h1 : d < 31
  · rw [if_pos h1] at hk; left; omega
  rw [if_neg h1] at hk; right
  by_cases h2 : d < 59 + l
  · rw [if_pos h2] at hk; left; omega
  rw [if_neg h2] at hk; right
  by_cases h3 : d < 90 + l
  · rw [if_pos h3] at hk; left; omega
  rw [if_neg h3] at hk; right
  by_cases h4 : d < 120 + l
  · rw [if_pos h4] at hk; left; omega
  rw [if_neg h4] at hk; right
  by_cases h5 : d < 151 + l
  · rw [if_pos h5] at hk; left; omega
  rw [if_neg h5] at hk; right
  by_cases h6 : d < 181 + l
  · rw [if_pos h6] at hk; left; omega
  rw [if_neg h6] at hk; right
  by_cases h7 : d < 212 + l
  · rw [if_pos h7] at hk; left; omega
  rw [if_neg h7] at hk; right
  by_cases h8 : d < 243 + l
  · rw [if_pos h8] at hk; left; omega
  rw [if_neg h8] at hk; right
  by_cases h9 : d < 273 + l
  · rw [if_pos h9] at hk; left; omega
  rw [if_neg h9] at hk; right
  by_cases h10 : d < 304 + l
  · rw [if_pos h10] at hk; left; omega
  rw [if_neg h10] at hk; right
  by_cases h11 : d < 334 + l
  · rw [if_pos h11] at hk; left; omega
  rw [if_neg h11] at hk; right
  omega

theorem monthStart_cases_aux (m l v : Int) (hk : monthStart m l = v) :
    (m ≤ 0 ∧ v = 0) ∨ (m = 1 ∧ v = 31) ∨ (m = 2 ∧ v = 59 + l) ∨ (m = 3 ∧ v = 90 + l) ∨
    (m = 4 ∧ v = 120 + l) ∨ (m = 5 ∧ v = 151 + l) ∨ (m = 6 ∧ v = 181 + l) ∨
    (m = 7 ∧ v = 212 + l) ∨ (m = 8 ∧ v = 243 + l) ∨ (m = 9 ∧ v = 273 + l) ∨
    (m = 10 ∧ v = 304 + l) ∨ (11 ≤ m ∧ v = 334 + l) := by
  unfold monthStart at hk
  by_cases h1 : m ≤ 0
  · rw [if_pos h1] at hk; left; omega
  rw [if_neg h1] at hk; right
  by_cases h2 : m = 1
  · rw [if_pos h2] at hk; left; omega
  rw [if_neg h2] at hk; right
  by_cases h3 : m = 2
  · rw [if_pos h3] at hk; left; omega
  rw [if_neg h3] at hk; right
  by_cases h4 : m = 3
  · rw [if_pos h4] at hk; left; omega
  rw [if_neg h4] at hk; right
  by_cases h5 : m = 4
  · rw [if_pos h5] at hk; left; omega
  rw [if_neg h5] at hk; right
  by_cases h6 : m = 5
  · rw [if_pos h6] at hk; left; omega
  rw [if_neg h6] at hk; right
  by_cases h7 : m = 6
  · rw [if_pos h7] at hk; left; omega
  rw [if_neg h7] at hk; right
  by_cases h8 : m = 7
  · rw [if_pos h8] at hk; left; omega
  rw [if_neg h8] at hk; right
  by_cases h9 : m = 8
  · rw [if_pos h9] at hk; left; omega
  rw [if_neg h9] at hk; right
  by_cases h10 : m = 9
  · rw [if_pos h10] at hk; left; omega
  rw [if_neg h10] at hk; right
  by_cases h11 : m = 10
  · rw [if_pos h11] at hk; left; omega
  rw [if_neg h11] at hk; right
  omega

theorem monthOfDayInYear_range (d l : Int) :
    0 ≤ monthOfDayInYear d l ∧ monthOfDayInYear d l ≤ 11 := by
  have h := monthOfDayInYear_cases_aux d l _ rfl
  generalize monthOfDayInYear d l = k at h ⊢
  omega

theorem MonthFromTime_range (t : Int) : 0 ≤ MonthFromTime t ∧ MonthFromTime t ≤ 11 :=
  monthOfDayInYear_range _ _

theorem MakeDay_of_month_range (y m d : Int) (h0 : 0 ≤ m) (h1 : m ≤ 11) :
    MakeDay y m d = DayFromYear y + monthStart m (leapOfYear y) + d - 1 := by
  unfold MakeDay
  have e1 : m / 12 = 0 := by omega
  have e2 : m % 12 = m := by omega
  simp only [e1, e2, add_zero]

/-- Rebuilding a day from the calendar fields of a time value, with another day
of the month, moves the day number by the difference. -/
theorem MakeDay_fields (t dt : Int) :
    MakeDay (YearFromTime t) (MonthFromTime t) dt = Day t - DateFromTime t + dt := by
  have hm := MonthFromTime_range t
  rw [MakeDay_of_month_range _ _ _ hm.1 hm.2]
  unfold DateFromTime DayWithinYear
  omega

theorem setDate_shift (t k : Int) :
    setDate (some t) (some (DateFromTime t + k)) = some (t + k * msPerDay) := by
  simp only [setDate, MakeDay_fields, Option.some.injEq]
  have h := Int.ediv_add_emod t msPerDay
  unfold Day
  linarith [Int.mul_comm msPerDay (t / msPerDay)]


theorem fields_of_day {y m d n : Int} (h0 : 0 ≤ m) (h1 : m ≤ 11) (hd : 1 ≤ d)
    (hd2 : d ≤ daysInMonth y (m + 1))
    (hn : n = DayFromYear y + monthStart m (leapOfYear y) + d - 1) :
    yearFromDay n = y ∧ monthOfDayInYear (n - DayFromYear y) (leapOfYear y) = m ∧
      n - DayFromYear y - monthStart m (leapOfYear y) + 1 = d := by
  have hl := leapOfYear_range y
  have hs := monthStart_cases_aux m (leapOfYear y) _ rfl
  have hy := DayFromYear_succ y
  have hdim : (m = 1 ∧ d ≤ 28 + leapOfYear y) ∨ ((m = 3 ∨ m = 5 ∨ m = 8 ∨ m = 10) ∧ d ≤ 30) ∨
      (m ≠ 1 ∧ m ≠ 3 ∧ m ≠ 5 ∧ m ≠ 8 ∧ m ≠ 10 ∧ d ≤ 31) := by
    unfold daysInMonth at hd2
    split_ifs at hd2 with c1 c2
    · left; omega
    · right; left; omega
    · right; right; omega
  clear hd2
  generalize monthStart m (leapOfYear y) = a at *
  generalize leapOfYear y = l at *
  have hrange : 0 ≤ n - DayFromYear y ∧ n - DayFromYear y < 365 + l := by omega
  have hyear : yearFromDay n = y := yearFromDay_unique (by omega) (by omega)
  refine ⟨hyear, ?_, by omega⟩
  have hc := monthOfDayInYear_cases_aux (n - DayFromYear y) l _ rfl
  generalize monthOfDayInYear (n - DayFromYear y) l = k at *
  rcases hs with hs | hs | hs | hs | hs | hs | hs | hs | hs | hs | hs | hs
  all_goals omega

/-! ## Digits -/

theorem digitVal_digitChar (k : Nat) (h : k ≤ 9) : digitVal (digitChar k) = some k := by
  interval_cases k <;> rfl

theorem digitChar_ne_dash (k : Nat) (h : k ≤ 9) : digitChar k ≠ '-' := by
  interval_cases k <;> decide

theorem natDigitsAux_fuel (f : Nat) : ∀ (n f' : Nat), n ≤ f → n ≤ f' →
    natDigitsAux f n = natDigitsAux f' n := by
  induction f with
  | zero =>
    intro n f' h h'
    have hn : n = 0 := by omega
    subst hn
    cases f' <;> simp [natDigitsAux]
  | succ f ih =>
    intro n f' h h'
    by_cases hlt : n < 10
    · cases f' with
      | zero =>
        have hn : n = 0 := by omega
        subst hn
        simp [natDigitsAux]
      | succ f'' => simp [natDigitsAux, hlt]
    · cases f' with
      | zero => omega
      | succ f'' =>
        simp only [natDigitsAux, hlt, if_false]
        rw [ih (n / 10) f'' (by omega) (by omega)]

theorem natDigits_small {n : Nat} (h : n < 10) : natDigits n = [digitChar n] := by
  unfold natDigits
  cases n with
  | zero => simp [natDigitsAux]
  | succ k => simp [natDigitsAux, h]

theorem natDigits_step {n : Nat} (h : 10 ≤ n) :
    natDigits n = natDigits (n / 10) ++ [digitChar (n % 10)] := by
  unfold natDigits
  cases n with
  | zero => omega
  | succ k =>
    have hlt : ¬ (k + 1 < 10) := by omega
    simp only [natDigitsAux, hlt, if_false]
    rw [natDigitsAux_fuel k ((k + 1) / 10) ((k + 1) / 10) (by omega) (le_refl _)]

theorem readDigits_append (xs : List Char) : ∀ (acc : Nat) (c : Char),
    readDigits acc (xs ++ [c]) =
      (readDigits acc xs).bind (fun a => (digitVal c).map (fun v => 10 * a + v)) := by
  induction xs with
  | nil =>
    intro acc c
    simp only [List.nil_append, readDigits, Option.some_bind]
    cases digitVal c <;> simp
  | cons x xs ih =>
    intro acc c
    simp only [List.cons_append, readDigits]
    cases digitVal x with
    | none => simp
    | some v => simpa using ih (10 * acc + v) c

theorem readDigits_natDigits (n : Nat) : readDigits 0 (natDigits n) = some n := by
  induction n using Nat.strong_induction_on with
  | _ n ih =>
    by_cases h : n < 10
    · rw [natDigits_small h]
      simp [readDigits, digitVal_digitChar n (by omega)]
    · rw [natDigits_step (by omega), readDigits_append, ih (n / 10) (by omega),
        digitVal_digitChar (n % 10) (by omega)]
      simp only [Option.some_bind, Option.map_some', Option.some.injEq]
      omega

theorem natDigits_no_dash (n : Nat) : '-' ∉ natDigits n := by
  induction n using Nat.strong_induction_on with
  | _ n ih =>
    by_cases h : n < 10
    · rw [natDigits_small h]
      simp only [List.mem_singleton]
      exact fun e => digitChar_ne_dash n (by omega) e.symm
    · rw [natDigits_step (by omega)]
      simp only [List.mem_append, List.mem_singleton, not_or]
      exact ⟨ih (n / 10) (by omega), fun e => digitChar_ne_dash (n % 10) (by omega) e.symm⟩

theorem natDigits_length_pos (n : Nat) : 0 < (natDigits n).length := by
  by_cases h : n < 10
  · rw [natDigits_small h]; simp
  · rw [natDigits_step (by omega)]; simp

theorem natDigits_two {n : Nat} (h1 : 10 ≤ n) (h2 : n < 100) :
    natDigits n = [digitChar (n / 10), digitChar (n % 10)] := by
  rw [natDigits_step h1, natDigits_small (by omega)]
  rfl

theorem natDigits_length_two {n : Nat} (h1 : 10 ≤ n) : 2 ≤ (natDigits n).length := by
  rw [natDigits_step h1]
  have := natDigits_length_pos (n / 10)
  simp only [List.length_append, List.length_singleton]
  omega

theorem splitDashAux_no_dash (xs : List Char) : ∀ (cur : List Char), '-' ∉ xs →
    splitDashAux cur xs = [cur.reverse ++ xs] := by
  induction xs with
  | nil => intro cur _; simp [splitDashAux]
  | cons x xs ih =>
    intro cur h
    simp only [List.mem_cons, not_or] at h
    have hx : x ≠ '-' := fun e => h.1 e.symm
    simp only [splitDashAux, hx, if_false]
    rw [ih (x :: cur) h.2]
    simp

theorem splitDashAux_append (xs : List Char) : ∀ (cur rest : List Char), '-' ∉ xs →
    splitDashAux cur (xs ++ '-' :: rest) = (cur.reverse ++ xs) :: splitDashAux [] rest := by
  induction xs with
  | nil => intro cur rest _; simp [splitDashAux]
  | cons x xs ih =>
    intro cur rest h
    simp only [List.mem_cons, not_or] at h
    have hx : x ≠ '-' := fun e => h.1 e.symm
    rw [List.cons_append, splitDashAux, if_neg hx, ih (x :: cur) rest h.2]
    simp

theorem splitDash_three (a b c : List Char) (ha : '-' ∉ a) (hb : '-' ∉ b) (hc : '-' ∉ c) :
    splitDash (a ++ '-' :: (b ++ '-' :: c)) = [a, b, c] := by
  unfold splitDash
  rw [splitDashAux_append a [] _ ha, splitDashAux_append b [] _ hb, splitDashAux_no_dash c [] hc]
  simp

/-! ## Dates -/

theorem YearFromTime_midnight (t : Int) : YearFromTime (Day t * msPerDay) = YearFromTime t := by
  unfold YearFromTime; rw [Day_mul]

theorem DayWithinYear_midnight (t : Int) : DayWithinYear (Day t * msPerDay) = DayWithinYear t := by
  unfold DayWithinYear; rw [YearFromTime_midnight, Day_mul]

theorem MonthFromTime_midnight (t : Int) : MonthFromTime (Day t * msPerDay) = MonthFromTime t := by
  unfold MonthFromTime; rw [YearFromTime_midnight, DayWithinYear_midnight]

theorem DateFromTime_midnight (t : Int) : DateFromTime (Day t * msPerDay) = DateFromTime t := by
  unfold DateFromTime
  rw [YearFromTime_midnight, DayWithinYear_midnight, MonthFromTime_midnight]

theorem DateFromTime_range (t : Int) : 1 ≤ DateFromTime t ∧ DateFromTime t ≤ 31 := by
  have hr := DayWithinYear_range t
  have hl := leapOfYear_range (YearFromTime t)
  have hc := monthOfDayInYear_cases_aux (DayWithinYear t) (leapOfYear (YearFromTime t)) _ rfl
  have hs := monthStart_cases_aux (MonthFromTime t) (leapOfYear (YearFromTime t)) _ rfl
  unfold DateFromTime
  have hm : monthOfDayInYear (DayWithinYear t) (leapOfYear (YearFromTime t)) = MonthFromTime t := rfl
  rw [hm] at hc
  generalize monthStart (MonthFromTime t) (leapOfYear (YearFromTime t)) = a at *
  generalize MonthFromTime t = m at *
  generalize DayWithinYear t = d at *
  generalize leapOfYear (YearFromTime t) = l at *
  rcases hc with hc | hc | hc | hc | hc | hc | hc | hc | hc | hc | hc | hc
  all_goals omega

theorem toISODate_some (t : Int) :
    toISODate (some t) = String.mk (numToChars (YearFromTime t) ++
      ('-' :: (pad2 (some (MonthFromTime t + 1)) ++ ('-' :: pad2 (some (DateFromTime t)))))) := by
  simp [toISODate, setHoursZero, getFullYear, getMonth, getDate, numberToChars,
    YearFromTime_midnight, MonthFromTime_midnight, DateFromTime_midnight]

theorem numToChars_nonneg {v : Int} (h : 0 ≤ v) : numToChars v = natDigits v.natAbs := by
  unfold numToChars
  rw [if_neg (by omega)]

theorem jsNumber_natDigits (n : Nat) : jsNumber (natDigits n) = some (n : Int) := by
  simp [jsNumber, readDigits_natDigits]

theorem pad2_nonneg {v : Int} (h : 0 ≤ v) :
    '-' ∉ pad2 (some v) ∧ jsNumber (pad2 (some v)) = some v := by
  have hnd := natDigits_no_dash v.natAbs
  have hlen := natDigits_length_pos v.natAbs
  have hnum := readDigits_natDigits v.natAbs
  have hv : ((v.natAbs : Nat) : Int) = v := by omega
  unfold pad2
  simp only [numberToChars, numToChars_nonneg h]
  by_cases hl : (natDigits v.natAbs).length < 2
  · have h1 : 2 - (natDigits v.natAbs).length = 1 := by omega
    rw [if_pos hl, h1]
    refine ⟨?_, ?_⟩
    · simp only [List.replicate_one, List.singleton_append, List.mem_cons, not_or]
      exact ⟨by decide, hnd⟩
    · have hz : digitVal '0' = some 0 := by rfl
      simp only [List.replicate_one, List.singleton_append, jsNumber, readDigits, hz]
      simp [hnum, hv]
  · rw [if_neg hl]
    exact ⟨hnd, by simp [jsNumber, hnum, hv]⟩

theorem parseISODate_fields (a b c : List Char) (y m d : Int)
    (ha : '-' ∉ a) (hb : '-' ∉ b) (hc : '-' ∉ c)
    (hy : jsNumber a = some y) (hm : jsNumber b = some m) (hd : jsNumber c = some d) :
    parseISODate (String.mk (a ++ ('-' :: (b ++ ('-' :: c))))) =
      some (MakeDay (if 0 ≤ y ∧ y ≤ 99 then 1900 + y else y) (m - 1) d * msPerDay) := by
  unfold parseISODate
  simp only [splitDash_three a b c ha hb hc, List.map, hy, hm, hd, Option.map_some',
    newDateYMD, setHoursZero, Day_mul]

/-- Parsing the ISO text of an instant gives midnight of its day, for years
from 100 on. -/
theorem parseISODate_toISODate (t : Int) (hy : 100 ≤ YearFromTime t) :
    parseISODate (toISODate (some t)) = some (Day t * msPerDay) := by
  have hm := MonthFromTime_range t
  have hd := DateFromTime_range t
  have hY : 0 ≤ YearFromTime t := by omega
  have pm := pad2_nonneg (show 0 ≤ MonthFromTime t + 1 by omega)
  have pd := pad2_nonneg (show 0 ≤ DateFromTime t by omega)
  have hv : ((YearFromTime t).natAbs : Int) = YearFromTime t := by omega
  rw [toISODate_some, parseISODate_fields _ _ _ (YearFromTime t) (MonthFromTime t + 1)
    (DateFromTime t) (by rw [numToChars_nonneg hY]; exact natDigits_no_dash _) pm.1 pd.1
    (by rw [numToChars_nonneg hY, jsNumber_natDigits, hv]) pm.2 pd.2]
  rw [if_neg (by omega), add_sub_cancel_right, MakeDay_fields]
  congr 2
  omega

/-! ## C1: the streak -/

theorem toISODate_congr {t u : Int} (h : Day t = Day u) :
    toISODate (some t) = toISODate (some u) := by
  simp [toISODate, setHoursZero, h]

/-- The day the loop of `computeStreak` looks at in iteration `i`, when `today`
is midnight of the day of `now`. -/
theorem streak_day_iso (now : Int) (i : Nat) :
    toISODate (setDate (some (Day now * msPerDay))
      ((getDate (some (Day now * msPerDay))).map (· - (i : Int)))) = isoDaysAgo now i := by
  have e : DateFromTime (Day now * msPerDay) - (i : Int)
      = DateFromTime (Day now * msPerDay) + (-(i : Int)) := by ring
  simp only [getDate, Option.map_some', e, setDate_shift]
  unfold isoDaysAgo
  apply toISODate_congr
  rw [Day_add_days, Day_mul]
  have : now - (i : Int) * msPerDay = now + (-(i : Int)) * msPerDay := by ring
  rw [this, Day_add_days]

theorem streakLoop_spec (habits : List Habit) (now : Int) (left : Nat) :
    ∀ (i streak : Nat),
      let r := streakLoop habits (some (Day now * msPerDay)) left i streak
      streak ≤ r ∧ r ≤ streak + left ∧
      (∀ j, j < r - streak → AllHabitsDone habits (isoDaysAgo now (i + j))) ∧
      (r - streak < left → ¬ AllHabitsDone habits (isoDaysAgo now (i + (r - streak)))) := by
  induction left with
  | zero =>
    intro i streak
    simp [streakLoop]
  | succ left ih =>
    intro i streak
    simp only [streakLoop, streak_day_iso]
    by_cases hall : (habits.all fun h => habitDoneToday h (isoDaysAgo now i)) = true
    · rw [if_pos hall]
      have hi := ih (i + 1) (streak + 1)
      simp only at hi
      obtain ⟨h1, h2, h3, h4⟩ := hi
      generalize streakLoop habits (some (Day now * msPerDay)) left (i + 1) (streak + 1) = r at *
      refine ⟨by omega, by omega, ?_, ?_⟩
      · intro j hj
        rcases Nat.eq_zero_or_pos j with h0 | hpos
        · subst h0
          intro h hh
          exact (List.all_eq_true.mp hall) h hh
        · have := h3 (j - 1) (by omega)
          have e : i + 1 + (j - 1) = i + j := by omega
          rwa [e] at this
      · intro hlt
        have := h4 (by omega)
        have e : i + 1 + (r - (streak + 1)) = i + (r - streak) := by omega
        rwa [e] at this
    · rw [if_neg hall]
      refine ⟨le_refl _, by omega, ?_, ?_⟩
      · intro j hj; omega
      · intro _ hdone
        apply hall
        rw [Nat.sub_self, Nat.add_zero] at hdone
        exact List.all_eq_true.mpr hdone

/-- C1. `computeStreak` is 0 for an empty habit list; otherwise it is the
number `k ≤ 365` such that every habit is complete on each of the days
today, today-1, ..., today-(k-1) and, when `k < 365`, some habit is not
complete on day today-k: the least failing day offset, or 365.  The clock is
read in a year from 100 on. -/
theorem computeStreak_spec (st : State) (now : Int) (hnow : 100 ≤ YearFromTime now) :
    (st.habits = [] → computeStreak st now = 0) ∧
    (st.habits ≠ [] →
      computeStreak st now ≤ 365 ∧
      (∀ i, i < computeStreak st now → AllHabitsDone st.habits (isoDaysAgo now i)) ∧
      (computeStreak st now < 365 →
        ¬ AllHabitsDone st.habits (isoDaysAgo now (computeStreak st now)))) := by
  constructor
  · intro h
    simp [computeStreak, h]
  · intro h
    have hlen : ¬ st.habits.length = 0 := by
      intro e; exact h (List.length_eq_zero.mp e)
    have hs := streakLoop_spec st.habits now 365 0 0
    simp only [computeStreak, if_neg hlen, parseISODate_toISODate now hnow]
    simp only [Nat.zero_add, Nat.sub_zero] at hs
    exact ⟨hs.2.1, hs.2.2.1, hs.2.2.2⟩

theorem computeStreak_sample : computeStreak sampleHabitState sampleNow = 2 := by decide

theorem computeStreak_spec_witness :
    100 ≤ YearFromTime sampleNow ∧
    ((sampleHabitState.habits = [] → computeStreak sampleHabitState sampleNow = 0) ∧
    (sampleHabitState.habits ≠ [] →
      computeStreak sampleHabitState sampleNow ≤ 365 ∧
      (∀ i, i < computeStreak sampleHabitState sampleNow →
        AllHabitsDone sampleHabitState.habits (isoDaysAgo sampleNow i)) ∧
      (computeStreak sampleHabitState sampleNow < 365 →
        ¬ AllHabitsDone sampleHabitState.habits
          (isoDaysAgo sampleNow (computeStreak sampleHabitState sampleNow))))) :=
  ⟨by decide, computeStreak_spec sampleHabitState sampleNow (by decide)⟩

/-! ## The stable sort -/

theorem sortInsert_perm {α : Type} (cmp : α → α → Option Int) (x : α) :
    ∀ l : List α, (sortInsert cmp x l).Perm (x :: l) := by
  intro l
  induction l with
  | nil => exact List.Perm.refl _
  | cons y ys ih =>
    unfold sortInsert
    by_cases h : 0 < (cmp x y).getD 0
    · rw [if_pos h]
      exact ((List.Perm.cons y ih).trans (List.Perm.swap x y ys))
    · rw [if_neg h]

theorem jsSort_perm {α : Type} (cmp : α → α → Option Int) :
    ∀ l : List α, (jsSort cmp l).Perm l := by
  intro l
  induction l with
  | nil => exact List.Perm.refl _
  | cons x xs ih =>
    unfold jsSort
    exact (sortInsert_perm cmp x _).trans (List.Perm.cons x ih)

theorem mem_jsSort {α : Type} (cmp : α → α → Option Int) (l : List α) (a : α) :
    a ∈ jsSort cmp l ↔ a ∈ l :=
  (jsSort_perm cmp l).mem_iff

theorem mem_sortInsert {α : Type} (cmp : α → α → Option Int) (x : α) (l : List α) (a : α) :
    a ∈ sortInsert cmp x l ↔ a = x ∨ a ∈ l := by
  rw [(sortInsert_perm cmp x l).mem_iff, List.mem_cons]

/-- Inserting into a list sorted by `R` keeps it sorted, when the comparator
puts `y` first exactly when `R x y` fails, and `R` is total and transitive on
the elements at hand. -/
theorem sortInsert_pairwise {α : Type} (cmp : α → α → Option Int) (R : α → α → Prop) (x : α) :
    ∀ l : List α,
      (∀ b ∈ l, (¬ 0 < (cmp x b).getD 0) ↔ R x b) →
      (∀ b ∈ l, R x b ∨ R b x) →
      (∀ b ∈ l, ∀ c ∈ l, R x b → R b c → R x c) →
      l.Pairwise R → (sortInsert cmp x l).Pairwise R := by
  intro l
  induction l with
  | nil => intro _ _ _ _; simp [sortInsert]
  | cons y ys ih =>
    intro hc htot htr hp
    have hp' := List.pairwise_cons.mp hp
    unfold sortInsert
    by_cases h : 0 < (cmp x y).getD 0
    · rw [if_pos h]
      have hnot : ¬ R x y := fun hr => ((hc y (List.mem_cons_self _ _)).mpr hr) h
      have hyx : R y x := (htot y (List.mem_cons_self _ _)).resolve_left hnot
      refine List.pairwise_cons.mpr ⟨?_, ?_⟩
      · intro b hb
        rcases (mem_sortInsert cmp x ys b).mp hb with e | hb'
        · rw [e]; exact hyx
        · exact hp'.1 b hb'
      · exact ih (fun b hb => hc b (List.mem_cons_of_mem _ hb))
          (fun b hb => htot b (List.mem_cons_of_mem _ hb))
          (fun b hb c hc' => htr b (List.mem_cons_of_mem _ hb) c (List.mem_cons_of_mem _ hc'))
          hp'.2
    · rw [if_neg h]
      have hxy : R x y := (hc y (List.mem_cons_self _ _)).mp h
      refine List.pairwise_cons.mpr ⟨?_, hp⟩
      intro b hb
      rcases List.mem_cons.mp hb with e | hb'
      · rw [e]; exact hxy
      · exact htr y (List.mem_cons_self _ _) b (List.mem_cons_of_mem _ hb') hxy (hp'.1 b hb')

theorem jsSort_pairwise {α : Type} (cmp : α → α → Option Int) (R : α → α → Prop) :
    ∀ l : List α,
      (∀ a ∈ l, ∀ b ∈ l, (¬ 0 < (cmp a b).getD 0) ↔ R a b) →
      (∀ a ∈ l, ∀ b ∈ l, R a b ∨ R b a) →
      (∀ a ∈ l, ∀ b ∈ l, ∀ c ∈ l, R a b → R b c → R a c) →
      (jsSort cmp l).Pairwise R := by
  intro l
  induction l with
  | nil => intro _ _ _; simp [jsSort]
  | cons x xs ih =>
    intro hc htot htr
    unfold jsSort
    have hx : x ∈ x :: xs := List.mem_cons_self _ _
    have hm : ∀ b, b ∈ jsSort cmp xs → b ∈ x :: xs := fun b hb =>
      List.mem_cons_of_mem _ ((mem_jsSort cmp xs b).mp hb)
    apply sortInsert_pairwise cmp R x
    · intro b hb; exact hc x hx b (hm b hb)
    · intro b hb; exact htot x hx b (hm b hb)
    · intro b hb c hc'; exact htr x hx b (hm b hb) c (hm c hc')
    · exact ih (fun a ha b hb => hc a (List.mem_cons_of_mem _ ha) b (List.mem_cons_of_mem _ hb))
        (fun a ha b hb => htot a (List.mem_cons_of_mem _ ha) b (List.mem_cons_of_mem _ hb))
        (fun a ha b hb c hc' => htr a (List.mem_cons_of_mem _ ha) b (List.mem_cons_of_mem _ hb)
          c (List.mem_cons_of_mem _ hc'))

/-- Stability of the insertion: elements of a class `p` on which the comparator
never asks for a swap keep their order. -/
theorem sortInsert_filter {α : Type} (cmp : α → α → Option Int) (p : α → Bool) (x : α) :
    ∀ l : List α,
      (∀ b ∈ l, p x = true → p b = true → ¬ 0 < (cmp x b).getD 0) →
      (sortInsert cmp x l).filter p = (x :: l).filter p := by
  intro l
  induction l with
  | nil => intro _; simp [sortInsert]
  | cons y ys ih =>
    intro hc
    unfold sortInsert
    by_cases h : 0 < (cmp x y).getD 0
    · rw [if_pos h]
      have ih' := ih (fun b hb => hc b (List.mem_cons_of_mem _ hb))
      have hxy : ¬ (p x = true ∧ p y = true) := fun hh =>
        hc y (List.mem_cons_self _ _) hh.1 hh.2 h
      by_cases hpy : p y = true
      · have hpx : p x = false := by
          cases hx : p x
          · rfl
          · exact absurd ⟨hx, hpy⟩ hxy
        rw [List.filter_cons_of_pos hpy, ih']
        simp [List.filter_cons, hpx, hpy]
      · have hpy' : p y = false := by simpa using hpy
        rw [List.filter_cons_of_neg (by simp [hpy']), ih']
        simp [List.filter_cons, hpy']
    · rw [if_neg h]

theorem jsSort_filter {α : Type} (cmp : α → α → Option Int) (p : α → Bool) :
    ∀ l : List α,
      (∀ a ∈ l, ∀ b ∈ l, p a = true → p b = true → ¬ 0 < (cmp a b).getD 0) →
      (jsSort cmp l).filter p = l.filter p := by
  intro l
  induction l with
  | nil => intro _; simp [jsSort]
  | cons x xs ih =>
    intro hc
    unfold jsSort
    rw [sortInsert_filter cmp p x _ (fun b hb => hc x (List.mem_cons_self _ _) b
      (List.mem_cons_of_mem _ ((mem_jsSort cmp xs b).mp hb)))]
    have ih' := ih (fun a ha b hb => hc a (List.mem_cons_of_mem _ ha) b (List.mem_cons_of_mem _ hb))
    simp only [List.filter_cons, ih']

/-! ## The assignment listing, by parsed due dates -/

theorem dateLe_some (x y : Int) : dateLe (some x) (some y) = true ↔ x ≤ y := by
  simp [dateLe]

theorem assignmentCompare_stays {a b : Assignment} (ha : DueDateOk a) (hb : DueDateOk b) :
    (¬ 0 < (assignmentCompare a b).getD 0) ↔ ListedBefore a b := by
  unfold DueDateOk at ha hb
  obtain ⟨x, hx⟩ := Option.isSome_iff_exists.mp ha
  obtain ⟨y, hy⟩ := Option.isSome_iff_exists.mp hb
  unfold assignmentCompare ListedBefore
  rw [hx, hy, dateLe_some]
  cases hda : a.done <;> cases hdb : b.done <;> simp [dateDiff]

theorem ListedBefore_total {a b : Assignment} (ha : DueDateOk a) (hb : DueDateOk b) :
    ListedBefore a b ∨ ListedBefore b a := by
  unfold DueDateOk at ha hb
  obtain ⟨x, hx⟩ := Option.isSome_iff_exists.mp ha
  obtain ⟨y, hy⟩ := Option.isSome_iff_exists.mp hb
  unfold ListedBefore
  rw [hx, hy, dateLe_some, dateLe_some]
  cases hda : a.done <;> cases hdb : b.done <;> simp <;> omega

theorem ListedBefore_trans {a b c : Assignment} (ha : DueDateOk a) (hb : DueDateOk b)
    (hc : DueDateOk c) (h1 : ListedBefore a b) (h2 : ListedBefore b c) : ListedBefore a c := by
  unfold DueDateOk at ha hb hc
  obtain ⟨x, hx⟩ := Option.isSome_iff_exists.mp ha
  obtain ⟨y, hy⟩ := Option.isSome_iff_exists.mp hb
  obtain ⟨z, hz⟩ := Option.isSome_iff_exists.mp hc
  unfold ListedBefore at *
  rw [hx, hy, dateLe_some] at h1
  rw [hy, hz, dateLe_some] at h2
  rw [hx, hz, dateLe_some]
  cases hda : a.done <;> cases hdb : b.done <;> cases hdc : c.done <;>
    simp [hda, hdb, hdc] at h1 h2 ⊢ <;> omega

/-- The listing in terms of parsed time values: for assignments whose due dates
parse, `sortedAssignments` returns a permutation of the list in which no done
entry stands before an open one and the parsed due dates do not decrease among
entries with the same `done` flag; entries with the same flag and the same
parsed due date keep their order from the input; the state is unchanged.  The
parsed value of a due date is its calendar day only for years from 0100 on. -/
theorem sortedAssignments_parsed (st : State) (hwf : ∀ a ∈ st.assignments, DueDateOk a) :
    (sortedAssignments st).1.Perm st.assignments ∧
    (sortedAssignments st).1.Pairwise (fun a b =>
      (a.done = true → b.done = true) ∧
      (a.done = b.done →
        dateLe (parseISODate a.dueISO) (parseISODate b.dueISO) = true)) ∧
    (∀ (flag : Bool) (due : JSDate),
      (sortedAssignments st).1.filter
          (fun a => decide (a.done = flag ∧ parseISODate a.dueISO = due)) =
        st.assignments.filter
          (fun a => decide (a.done = flag ∧ parseISODate a.dueISO = due))) ∧
    (sortedAssignments st).2 = st := by
  refine ⟨jsSort_perm _ _, ?_, ?_, rfl⟩
  · have hp := jsSort_pairwise assignmentCompare ListedBefore st.assignments
      (fun a ha b hb => assignmentCompare_stays (hwf a ha) (hwf b hb))
      (fun a ha b hb => ListedBefore_total (hwf a ha) (hwf b hb))
      (fun a ha b hb c hc => ListedBefore_trans (hwf a ha) (hwf b hb) (hwf c hc))
    refine List.Pairwise.imp ?_ hp
    intro a b hab
    unfold ListedBefore at hab
    rcases hab with ⟨h1, h2⟩ | ⟨h1, h2⟩
    · exact ⟨fun _ => h2, fun e => by rw [h1, h2] at e; cases e⟩
    · exact ⟨fun e => by rw [← h1]; exact e, fun _ => h2⟩
  · intro flag due
    apply jsSort_filter
    intro a ha b hb hpa hpb
    have ha' := of_decide_eq_true hpa
    have hb' := of_decide_eq_true hpb
    rw [assignmentCompare_stays (hwf a ha) (hwf b hb)]
    right
    refine ⟨by rw [ha'.1, hb'.1], ?_⟩
    have hok := hwf a ha
    unfold DueDateOk at hok
    obtain ⟨x, hx⟩ := Option.isSome_iff_exists.mp hok
    rw [hb'.2, ← ha'.2, hx, dateLe_some]

theorem sortedAssignments_sample :
    (sortedAssignments sampleAssignmentState).1.map (fun a => a.id) = ["a3", "a2", "a1"] := by
  decide

/-! ## The next-up assignment, by parsed due dates -/

theorem dueCompare_stays {a b : Assignment} (ha : DueDateOk a) (hb : DueDateOk b) :
    (¬ 0 < (dueCompare a b).getD 0) ↔
      dateLe (parseISODate a.dueISO) (parseISODate b.dueISO) = true := by
  unfold DueDateOk at ha hb
  obtain ⟨x, hx⟩ := Option.isSome_iff_exists.mp ha
  obtain ⟨y, hy⟩ := Option.isSome_iff_exists.mp hb
  unfold dueCompare
  rw [hx, hy, dateLe_some]
  simp [dateDiff]

theorem dueCompare_same_due {a b : Assignment}
    (h : parseISODate a.dueISO = parseISODate b.dueISO) :
    ¬ 0 < (dueCompare a b).getD 0 := by
  unfold dueCompare
  rw [h]
  cases parseISODate b.dueISO <;> simp [dateDiff]

/-- The head of the sorted pending list is an open assignment of the store that
is due no later than any other open one. -/
theorem pending_head_min (l : List Assignment) (a : Assignment) (rest : List Assignment)
    (hwf : ∀ b ∈ l, b.done = false → DueDateOk b)
    (hs : jsSort dueCompare (l.filter (fun b => !b.done)) = a :: rest) :
    a ∈ l ∧ a.done = false ∧
    ∀ b ∈ l, b.done = false →
      dateLe (parseISODate a.dueISO) (parseISODate b.dueISO) = true := by
  have hmem : ∀ b, b ∈ l.filter (fun b => !b.done) ↔ (b ∈ l ∧ b.done = false) := by
    intro b; simp [List.mem_filter]
  have hok : ∀ b ∈ l.filter (fun b => !b.done), DueDateOk b := fun b hb =>
    hwf b ((hmem b).mp hb).1 ((hmem b).mp hb).2
  have ha : a ∈ l.filter (fun b => !b.done) := by
    rw [← mem_jsSort dueCompare, hs]; exact List.mem_cons_self _ _
  have hp := jsSort_pairwise dueCompare
    (fun a b => dateLe (parseISODate a.dueISO) (parseISODate b.dueISO) = true)
    (l.filter (fun b => !b.done))
    (fun x hx y hy => dueCompare_stays (hok x hx) (hok y hy))
    (fun x hx y hy => by
      have h1 := hok x hx; have h2 := hok y hy
      unfold DueDateOk at h1 h2
      obtain ⟨u, hu⟩ := Option.isSome_iff_exists.mp h1
      obtain ⟨v, hv⟩ := Option.isSome_iff_exists.mp h2
      simp only [hu, hv, dateLe_some]; omega)
    (fun x hx y hy z hz => by
      have h1 := hok x hx; have h2 := hok y hy; have h3 := hok z hz
      unfold DueDateOk at h1 h2 h3
      obtain ⟨u, hu⟩ := Option.isSome_iff_exists.mp h1
      obtain ⟨v, hv⟩ := Option.isSome_iff_exists.mp h2
      obtain ⟨w, hw⟩ := Option.isSome_iff_exists.mp h3
      simp only [hu, hv, hw, dateLe_some]; omega)
  rw [hs] at hp
  have hhead := (List.pairwise_cons.mp hp).1
  refine ⟨((hmem a).mp ha).1, ((hmem a).mp ha).2, ?_⟩
  intro b hb hbd
  have hb' : b ∈ jsSort dueCompare (l.filter (fun b => !b.done)) := by
    rw [mem_jsSort]; exact (hmem b).mpr ⟨hb, hbd⟩
  rw [hs] at hb'
  rcases List.mem_cons.mp hb' with e | hr
  · rw [e]
    have h1 := hok a ha
    unfold DueDateOk at h1
    obtain ⟨u, hu⟩ := Option.isSome_iff_exists.mp h1
    rw [hu, dateLe_some]
  · exact hhead b hr

/-- The head of the sorted pending list is the first open assignment of the
list, in list order, with its parsed due date (a fact about `jsSort`, which is
the sort of the engine where the due dates parse). -/
theorem pending_head_first (l : List Assignment) (a : Assignment) (rest : List Assignment)
    (hs : jsSort dueCompare (l.filter (fun b => !b.done)) = a :: rest) :
    ∃ pre post, l = pre ++ a :: post ∧
      ∀ b ∈ pre, b.done = false → parseISODate b.dueISO ≠ parseISODate a.dueISO := by
  have hst := jsSort_filter dueCompare
    (fun b => decide (parseISODate b.dueISO = parseISODate a.dueISO))
    (l.filter (fun b => !b.done))
    (fun x _ y _ hx hy => dueCompare_same_due
      ((of_decide_eq_true hx).trans (of_decide_eq_true hy).symm))
  rw [hs, List.filter_cons_of_pos (by simp), List.filter_filter] at hst
  obtain ⟨pre, post, hl, hpre, _, _⟩ := List.filter_eq_cons_iff.mp hst.symm
  refine ⟨pre, post, hl, ?_⟩
  intro b hb hbd hdue
  apply hpre b hb
  simp [hbd, hdue]

/-- The next-up assignment in terms of parsed time values: `nextUpAssignment`
returns `null` exactly when the store has no open assignment.  Otherwise, the
due dates of the open assignments parsing, it returns an open assignment of the
store whose parsed due date is no later than that of any other open one, with
`diffDays = daysBetween(today, parseISODate(dueISO))`. -/
theorem nextUpAssignment_parsed (st : State) (now : Int) :
    (nextUpAssignment st now = none ↔ ∀ a ∈ st.assignments, a.done = true) ∧
    ((∀ a ∈ st.assignments, a.done = false → DueDateOk a) →
      ∀ r, nextUpAssignment st now = some r →
        r.assignment ∈ st.assignments ∧ r.assignment.done = false ∧
        (∀ b ∈ st.assignments, b.done = false →
          dateLe (parseISODate r.assignment.dueISO) (parseISODate b.dueISO) = true) ∧
        r.diffDays = daysBetween (parseISODate (toISODate (some now)))
          (parseISODate r.assignment.dueISO)) := by
  constructor
  · unfold nextUpAssignment
    simp only
    cases hs : jsSort dueCompare (st.assignments.filter (fun a => !a.done)) with
    | nil =>
      simp only [true_iff]
      intro a ha
      have hperm := jsSort_perm dueCompare (st.assignments.filter (fun a => !a.done))
      rw [hs] at hperm
      have hnil := List.Perm.eq_nil hperm.symm
      by_contra hd
      have hd' : a.done = false := by simpa using hd
      have : a ∈ st.assignments.filter (fun a => !a.done) := by
        simp [List.mem_filter, ha, hd']
      rw [hnil] at this
      exact List.not_mem_nil _ this
    | cons a rest =>
      simp only [false_iff, reduceCtorEq]
      intro hall
      have ha : a ∈ st.assignments.filter (fun a => !a.done) := by
        rw [← mem_jsSort dueCompare, hs]; exact List.mem_cons_self _ _
      have := List.mem_filter.mp ha
      have hd := hall a this.1
      simp [hd] at this
  · intro hwf r hr
    unfold nextUpAssignment at hr
    simp only at hr
    cases hs : jsSort dueCompare (st.assignments.filter (fun a => !a.done)) with
    | nil => rw [hs] at hr; cases hr
    | cons a rest =>
      rw [hs] at hr
      simp only [Option.some.injEq] at hr
      subst hr
      have h := pending_head_min st.assignments a rest hwf hs
      exact ⟨h.1, h.2.1, h.2.2, rfl⟩

theorem nextUpAssignment_sample :
    nextUpAssignment sampleAssignmentState sampleNow =
      some { assignment := { id := "a3", title := "HW 3", course := "",
                             dueISO := "1970-01-05", done := false },
             diffDays := some 2 } := by
  decide

theorem submitAddAssignment_assignments (st : State) (r : AddRequest) :
    (submitAddAssignment st r.uid r.title r.course r.due).assignments =
      (recordOf r).toList ++ st.assignments := by
  unfold submitAddAssignment recordOf
  by_cases h : formField r.title = "" ∨ formField r.due = ""
  · simp [h]
  · simp [h]

theorem submitAll_assignments (reqs : List AddRequest) : ∀ st : State,
    (submitAll st reqs).assignments = (reqs.filterMap recordOf).reverse ++ st.assignments := by
  induction reqs with
  | nil => intro st; simp [submitAll]
  | cons r rs ih =>
    intro st
    have h := ih (submitAddAssignment st r.uid r.title r.course r.due)
    unfold submitAll at h ⊢
    rw [List.foldl_cons, h, submitAddAssignment_assignments]
    cases hr : recordOf r <;> simp [List.filterMap_cons, hr]

/-! ## C6: overdue and this-week counts -/

theorem startOfWeek_some (t : Int) :
    startOfWeek (some t) = some ((Day t - (WeekDay t + 6) % 7) * msPerDay) := by
  have e : DateFromTime (Day t * msPerDay) - (WeekDay (Day t * msPerDay) + 6) % 7
      = DateFromTime (Day t * msPerDay) + (-((WeekDay (Day t * msPerDay) + 6) % 7)) := by ring
  simp only [startOfWeek, setHoursZero, getDay, getDate, Option.map_some', Option.bind_eq_bind,
    Option.some_bind, Option.pure_def, e, setDate_shift]
  have hw : WeekDay (Day t * msPerDay) = WeekDay t := by unfold WeekDay; rw [Day_mul]
  rw [hw]
  congr 1
  ring

theorem endOfWeek_some (t : Int) :
    endOfWeek (some t) = some ((Day t - (WeekDay t + 6) % 7 + 6) * msPerDay) := by
  simp only [endOfWeek, startOfWeek_some, getDate, Option.map_some', setDate_shift]
  congr 1
  ring

theorem week_contains_day (t : Int) :
    dateLe (startOfWeek (some (Day t * msPerDay))) (some (Day t * msPerDay)) = true ∧
    dateLe (some (Day t * msPerDay)) (endOfWeek (some (Day t * msPerDay))) = true := by
  rw [startOfWeek_some, endOfWeek_some, dateLe_some, dateLe_some, Day_mul]
  have h0 : 0 ≤ (WeekDay (Day t * msPerDay) + 6) % 7 := Int.emod_nonneg _ (by decide)
  have h1 : (WeekDay (Day t * msPerDay) + 6) % 7 < 7 := Int.emod_lt_of_pos _ (by decide)
  generalize (WeekDay (Day t * msPerDay) + 6) % 7 = w at h0 h1
  unfold msPerDay
  constructor <;> omega

theorem statsStep_foldl (today weekStart weekEnd : JSDate) (l : List Assignment) :
    ∀ acc : AssignmentStats,
      l.foldl (statsStep today weekStart weekEnd) acc =
        { overdue := acc.overdue +
            (l.filter (fun a => !a.done && dateLt (parseISODate a.dueISO) today)).length,
          week := acc.week +
            (l.filter (fun a => !a.done && (dateLe weekStart (parseISODate a.dueISO) &&
              dateLe (parseISODate a.dueISO) weekEnd))).length } := by
  induction l with
  | nil => intro acc; simp
  | cons a l ih =>
    intro acc
    rw [List.foldl_cons, ih]
    unfold statsStep
    cases hd : a.done <;>
      cases h1 : dateLt (parseISODate a.dueISO) today <;>
      cases h2 : dateLe weekStart (parseISODate a.dueISO) <;>
      cases h3 : dateLe (parseISODate a.dueISO) weekEnd <;>
      simp [List.filter_cons, hd, h1, h2, h3] <;> omega

/-- C6. With the clock read in a year from 100 on, `getAssignmentStats`
returns as `overdue` the number of open assignments due strictly before today
and as `week` the number of open assignments due from `startOfWeek(today)` to
`endOfWeek(today)`, both ends included; done assignments are counted in
neither.  An assignment due exactly today is inside the week bounds and is not
before today. -/
theorem getAssignmentStats_spec (st : State) (now : Int) (hnow : 100 ≤ YearFromTime now) :
    (getAssignmentStats st now).overdue =
      (st.assignments.filter (fun a =>
        !a.done && dateLt (parseISODate a.dueISO) (midnightOf now))).length ∧
    (getAssignmentStats st now).week =
      (st.assignments.filter (fun a =>
        !a.done && (dateLe (startOfWeek (midnightOf now)) (parseISODate a.dueISO) &&
          dateLe (parseISODate a.dueISO) (endOfWeek (midnightOf now))))).length ∧
    (∀ a : Assignment, parseISODate a.dueISO = midnightOf now →
      dateLt (parseISODate a.dueISO) (midnightOf now) = false ∧
      dateLe (startOfWeek (midnightOf now)) (parseISODate a.dueISO) = true ∧
      dateLe (parseISODate a.dueISO) (endOfWeek (midnightOf now)) = true) := by
  refine ⟨?_, ?_, ?_⟩
  · simp only [getAssignmentStats, parseISODate_toISODate now hnow, statsStep_foldl, midnightOf,
      Nat.zero_add]
  · simp only [getAssignmentStats, parseISODate_toISODate now hnow, statsStep_foldl, midnightOf,
      Nat.zero_add]
  · intro a ha
    rw [ha]
    have hw := week_contains_day now
    unfold midnightOf
    exact ⟨by simp [dateLt], hw.1, hw.2⟩

theorem getAssignmentStats_sample :
    getAssignmentStats sampleAssignmentState (8 * 86400000) = { overdue := 1, week := 2 } := by
  decide

theorem getAssignmentStats_spec_witness :
    100 ≤ YearFromTime (8 * 86400000) ∧
    (getAssignmentStats sampleAssignmentState (8 * 86400000)).overdue =
      (sampleAssignmentState.assignments.filter (fun a =>
        !a.done && dateLt (parseISODate a.dueISO) (midnightOf (8 * 86400000)))).length :=
  ⟨by decide, (getAssignmentStats_spec sampleAssignmentState (8 * 86400000) (by decide)).1⟩

/-! ## C7: urgency texts -/

theorem daysBetween_midnights (a b : Int) :
    daysBetween (some (a * msPerDay)) (some (b * msPerDay)) = some (b - a) := by
  simp only [daysBetween, setHoursZero, Option.map_some', Day_mul, Option.bind_eq_bind,
    Option.some_bind, Option.pure_def, Option.some.injEq]
  unfold roundDays msPerDay
  omega

theorem mathAbs_neg {k : Int} (h : k < 0) : mathAbs (some k) = some (-k) := by
  simp only [mathAbs, Option.map_some', Option.some.injEq]
  omega

/-- C7. With `diff = daysBetween(today, dueDate)` an integer `k`, the text
`renderAssignmentItem` appends and the text of the next-up card are: overdue by
`-k` day(s) when `k < 0` (and `-k` is positive), due today when `k = 0`, due
tomorrow when `k = 1`, due in `k` day(s) when `k > 1`; exactly one of the four
cases applies to `k`. -/
theorem urgency_spec (formatFriendlyDate : String → String) (a : Assignment) (now : Int)
    (k : Int)
    (hk : daysBetween (parseISODate (toISODate (some now))) (parseISODate a.dueISO) = some k) :
    (k < 0 →
      0 < -k ∧
      (renderAssignmentItem formatFriendlyDate a now).sub =
        (if a.course ≠ "" then a.course else "Assignment") ++ " • overdue by " ++
          String.mk (numToChars (-k)) ++ " day(s)" ∧
      (renderNextUp formatFriendlyDate (some { assignment := a, diffDays := some k })).meta =
        (if a.course ≠ "" then a.course ++ " • " ++ formatFriendlyDate a.dueISO
          else formatFriendlyDate a.dueISO) ++ " • overdue by " ++
          String.mk (numToChars (-k)) ++ " day(s)") ∧
    (k = 0 →
      (renderAssignmentItem formatFriendlyDate a now).sub =
        (if a.course ≠ "" then a.course else "Assignment") ++ " • due today" ∧
      (renderNextUp formatFriendlyDate (some { assignment := a, diffDays := some k })).meta =
        (if a.course ≠ "" then a.course ++ " • " ++ formatFriendlyDate a.dueISO
          else formatFriendlyDate a.dueISO) ++ " • due today") ∧
    (k = 1 →
      (renderAssignmentItem formatFriendlyDate a now).sub =
        (if a.course ≠ "" then a.course else "Assignment") ++ " • due tomorrow" ∧
      (renderNextUp formatFriendlyDate (some { assignment := a, diffDays := some k })).meta =
        (if a.course ≠ "" then a.course ++ " • " ++ formatFriendlyDate a.dueISO
          else formatFriendlyDate a.dueISO) ++ " • due tomorrow") ∧
    (1 < k →
      (renderAssignmentItem formatFriendlyDate a now).sub =
        (if a.course ≠ "" then a.course else "Assignment") ++ " • due in " ++
          String.mk (numToChars k) ++ " day(s)" ∧
      (renderNextUp formatFriendlyDate (some { assignment := a, diffDays := some k })).meta =
        (if a.course ≠ "" then a.course ++ " • " ++ formatFriendlyDate a.dueISO
          else formatFriendlyDate a.dueISO) ++ " • due in " ++
          String.mk (numToChars k) ++ " day(s)") ∧
    ((k < 0 ∧ ¬ k = 0 ∧ ¬ k = 1 ∧ ¬ 1 < k) ∨ (¬ k < 0 ∧ k = 0 ∧ ¬ k = 1 ∧ ¬ 1 < k) ∨
      (¬ k < 0 ∧ ¬ k = 0 ∧ k = 1 ∧ ¬ 1 < k) ∨ (¬ k < 0 ∧ ¬ k = 0 ∧ ¬ k = 1 ∧ 1 < k)) := by
  refine ⟨?_, ?_, ?_, ?_, by omega⟩
  · intro h
    have hlt : numLt (some k) 0 = true := by simp [numLt, h]
    refine ⟨by omega, ?_, ?_⟩
    · simp only [renderAssignmentItem, hk, hlt, if_true, mathAbs_neg h, numberToChars]
    · simp only [renderNextUp, hlt, if_true, mathAbs_neg h, numberToChars]
  · intro h
    subst h
    have hlt : numLt (some (0 : Int)) 0 = false := by simp [numLt]
    have heq : numEq (some (0 : Int)) 0 = true := by simp [numEq]
    constructor
    · simp [renderAssignmentItem, hk, hlt, heq]
    · simp [renderNextUp, hlt, heq]
  · intro h
    subst h
    have hlt : numLt (some (1 : Int)) 0 = false := by simp [numLt]
    have heq0 : numEq (some (1 : Int)) 0 = false := by simp [numEq]
    have heq1 : numEq (some (1 : Int)) 1 = true := by simp [numEq]
    constructor
    · simp [renderAssignmentItem, hk, hlt, heq0, heq1]
    · simp [renderNextUp, hlt, heq0, heq1]
  · intro h
    have hlt : numLt (some k) 0 = false := by simp [numLt]; omega
    have heq0 : numEq (some k) 0 = false := by simp [numEq]; omega
    have heq1 : numEq (some k) 1 = false := by simp [numEq]; omega
    constructor
    · simp [renderAssignmentItem, hk, hlt, heq0, heq1, numberToChars]
    · simp [renderNextUp, hlt, heq0, heq1, numberToChars]

theorem urgency_overdue_sample :
    (renderAssignmentItem (fun s => s)
      { id := "a", title := "Essay", course := "", dueISO := "1970-01-02", done := false }
      sampleNow).sub = "Assignment • overdue by 1 day(s)" := by
  decide

theorem urgency_spec_witness :
    daysBetween (parseISODate (toISODate (some sampleNow))) (parseISODate sampleLab.dueISO)
      = some 6 ∧
    ((1 : Int) < 6 →
      (renderAssignmentItem (fun s => s) sampleLab sampleNow).sub =
        (if sampleLab.course ≠ "" then sampleLab.course else "Assignment") ++ " • due in " ++
          String.mk (numToChars 6) ++ " day(s)" ∧
      (renderNextUp (fun s => s) (some { assignment := sampleLab, diffDays := some 6 })).meta =
        (if sampleLab.course ≠ "" then sampleLab.course ++ " • " ++ (fun s => s) sampleLab.dueISO
          else (fun s => s) sampleLab.dueISO) ++ " • due in " ++
          String.mk (numToChars 6) ++ " day(s)") :=
  ⟨by decide, (urgency_spec (fun s => s) sampleLab sampleNow 6 (by decide)).2.2.2.1⟩

/-! ## C8: loading the state -/

/-- C8 as stated fails: when the stored text is `null`, which `JSON.parse`
reads as the value null, `loadState` returns null, which is not a state tree
and is not the default tree. -/
theorem loadState_malformed_counterexample :
    ∃ jsonParse : String → Option JSON,
      jsonParse "null" = some JSON.null ∧
      storageWithNull KEY = some "null" ∧
      isStateTree JSON.null = false ∧
      loadState jsonParse storageWithNull 0 = JSON.null ∧
      loadState jsonParse storageWithNull 0 ≠ defaultTree storageWithNull 0 := by
  refine ⟨fun s => if s = "null" then some JSON.null else none, by simp, by decide, rfl, ?_, ?_⟩
  · simp [loadState, storageWithNull, KEY]
  · simp [loadState, storageWithNull, KEY, defaultTree]

/-- C8, amended. `loadState` yields the default tree when the stored value is
missing, is the empty text, or is text `JSON.parse` cannot parse; text that
parses is returned as parsed, whatever its shape.  The default tree is a state
tree with empty habits, assignments and focus sessions, a study log holding
only today with 0 minutes, study goal 120, and the theme and palette of the
separate appearance keys, `light` and `ocean` when those are not set. -/
theorem loadState_spec (jsonParse : String → Option JSON) (getItem : String → Option String)
    (now : Int) :
    (getItem KEY = none → loadState jsonParse getItem now = defaultTree getItem now) ∧
    (getItem KEY = some "" → loadState jsonParse getItem now = defaultTree getItem now) ∧
    (∀ raw, getItem KEY = some raw → jsonParse raw = none →
      loadState jsonParse getItem now = defaultTree getItem now) ∧
    (∀ raw tree, getItem KEY = some raw → raw ≠ "" → jsonParse raw = some tree →
      loadState jsonParse getItem now = tree) ∧
    isStateTree (defaultTree getItem now) = true ∧
    jsonField "habits" (defaultTree getItem now) = some (JSON.arr []) ∧
    jsonField "assignments" (defaultTree getItem now) = some (JSON.arr []) ∧
    jsonField "focusSessions" (defaultTree getItem now) = some (JSON.arr []) ∧
    jsonField "studyLog" (defaultTree getItem now) =
      some (JSON.obj [(toISODate (some now), JSON.num 0)]) ∧
    jsonField "studyGoal" (defaultTree getItem now) = some (JSON.num 120) ∧
    jsonField "theme" (defaultTree getItem now) =
      some (JSON.str (orElseStr (getItem "lifeos_theme") "light")) ∧
    jsonField "palette" (defaultTree getItem now) =
      some (JSON.str (orElseStr (getItem "lifeos_palette") "ocean")) := by
  refine ⟨?_, ?_, ?_, ?_, ?_, ?_, ?_, ?_, ?_, ?_, ?_, ?_⟩
  · intro h; simp [loadState, h]
  · intro h; simp [loadState, h]
  · intro raw h hp
    simp only [loadState, h, hp]
    split_ifs <;> rfl
  · intro raw tree h hne hp
    simp [loadState, h, hne, hp]
  all_goals simp [defaultTree, isStateTree, jsonField, jsonIsList, jsonIsObject, List.lookup]

theorem loadState_spec_witness :
    storageEmpty KEY = none ∧
    loadState (fun _ => none) storageEmpty 0 = defaultTree storageEmpty 0 :=
  ⟨rfl, (loadState_spec (fun _ => none) storageEmpty 0).1 rfl⟩

/-! ## C2, C9: the focus timer -/

theorem lookup_objSet_self {β : Type} (key : String) (v : β) :
    ∀ l : List (String × β), (objSet key v l).lookup key = some v := by
  intro l
  induction l with
  | nil => simp [objSet, List.lookup]
  | cons p l ih =>
    obtain ⟨k, w⟩ := p
    unfold objSet
    by_cases h : k = key
    · rw [if_pos h]; subst h; simp [List.lookup]
    · rw [if_neg h]
      have hb : (key == k) = false := by
        simp only [beq_eq_false_iff_ne, ne_eq]
        exact fun e => h e.symm
      simp only [List.lookup, hb, ih]

theorem lookup_objSet_other {β : Type} (key other : String) (v : β) (hne : other ≠ key) :
    ∀ l : List (String × β), (objSet key v l).lookup other = l.lookup other := by
  intro l
  induction l with
  | nil =>
    have hb : (other == key) = false := by simpa using hne
    simp [objSet, List.lookup, hb]
  | cons p l ih =>
    obtain ⟨k, w⟩ := p
    unfold objSet
    by_cases h : k = key
    · rw [if_pos h]
      subst h
      have hb : (other == k) = false := by simpa using hne
      simp [List.lookup, hb]
    · rw [if_neg h]
      cases hb : (other == k) <;> simp [List.lookup, hb, ih]

theorem getStudyMinutes_addStudyMinutes (st : State) (iso : String) (m : Int) :
    getStudyMinutes (addStudyMinutes st iso m) iso = getStudyMinutes st iso + m := by
  unfold getStudyMinutes addStudyMinutes
  simp only [lookup_objSet_self, Option.getD_some]
  cases st.studyLog <;> simp [List.lookup]

theorem getStudyMinutes_addStudyMinutes_other (st : State) (iso other : String) (m : Int)
    (hne : other ≠ iso) :
    getStudyMinutes (addStudyMinutes st iso m) other = getStudyMinutes st other := by
  unfold getStudyMinutes addStudyMinutes
  simp only [lookup_objSet_other iso other _ hne]
  cases st.studyLog <;> simp [List.lookup]

/-- With no interval registered, the host runs no tick callback. -/
theorem fireAll_idle (ticks : List (Nat × Int × String)) :
    ∀ w : World, w.activeIntervals = [] → fireAll w ticks = w := by
  induction ticks with
  | nil => intro w _; rfl
  | cons tk ticks ih =>
    intro w h
    unfold fireAll at ih ⊢
    rw [List.foldl_cons]
    have : fireInterval w tk.1 tk.2.1 tk.2.2 = w := by
      unfold fireInterval
      rw [h]
      simp
    rw [this]
    exact ih w h

/-- While the end instant is not reached by a tick of the registered interval,
ticks change nothing. -/
theorem fireAll_before_end (ticks : List (Nat × Int × String)) (e : Int) (id : Nat) :
    ∀ w : World, w.timer.endAt = some e → w.activeIntervals = [id] →
      (∀ tk ∈ ticks, tk.1 = id → tk.2.1 < e) → fireAll w ticks = w := by
  induction ticks with
  | nil => intro w _ _ _; rfl
  | cons tk ticks ih =>
    intro w he ha hlt
    unfold fireAll at ih ⊢
    rw [List.foldl_cons]
    have hlt' := hlt tk (List.mem_cons_self _ _)
    have : fireInterval w tk.1 tk.2.1 tk.2.2 = w := by
      unfold fireInterval
      by_cases hm : tk.1 ∈ w.activeIntervals
      · rw [if_pos hm]
        rw [ha, List.mem_singleton] at hm
        have hl := hlt' hm
        unfold timerTick
        simp only [he, Option.getD_some]
        have : ¬ (e - tk.2.1 ≤ 0) := by omega
        simp [this]
      · rw [if_neg hm]
    rw [this]
    exact ih w he ha (fun t ht => hlt t (List.mem_cons_of_mem _ ht))

theorem fireAll_append (w : World) (a b : List (Nat × Int × String)) :
    fireAll w (a ++ b) = fireAll (fireAll w a) b := by
  unfold fireAll
  rw [List.foldl_append]

theorem stopTimer_inv (w : World) (h : TimerInv w) :
    TimerInv (stopTimer w) ∧ (stopTimer w).state = w.state ∧
    (stopTimer w).activeIntervals = [] ∧ (stopTimer w).timer.running = false := by
  obtain ⟨hpos, hrest, hrun⟩ := h
  cases hr : w.timer.running with
  | false =>
    obtain ⟨ha, hi⟩ := hrest hr
    have e : stopTimer w = { w with
        timer := { w.timer with running := false, endAt := none, intervalId := none },
        toggleText := "Start" } := by
      simp [stopTimer, hi]
    rw [e]
    exact ⟨⟨hpos, fun _ => ⟨ha, rfl⟩, fun h => by simp at h⟩, rfl, ha, rfl⟩
  | true =>
    obtain ⟨id, e, hne, hi, ha, _, _⟩ := hrun hr
    have e : stopTimer w = { w with
        timer := { w.timer with running := false, endAt := none, intervalId := none },
        activeIntervals := [],
        toggleText := "Start" } := by
      simp [stopTimer, hi, hne, clearInterval, ha]
    rw [e]
    exact ⟨⟨hpos, fun _ => ⟨rfl, rfl⟩, fun h => by simp at h⟩, rfl, rfl, rfl⟩

theorem startTimer_inv (w : World) (now : Int) (h : TimerInv w)
    (hr : w.timer.running = false) : TimerInv (startTimer w now) := by
  obtain ⟨hpos, hrest, _⟩ := h
  obtain ⟨ha, _⟩ := hrest hr
  refine ⟨Nat.succ_pos _, fun h => by simp [startTimer] at h, fun _ => ?_⟩
  exact ⟨w.nextIntervalId, now + w.timer.minutes * 60 * 1000, by omega, rfl,
    by simp [startTimer, ha], rfl, rfl⟩

theorem fireInterval_inv (w : World) (id : Nat) (now : Int) (uid : String) (h : TimerInv w) :
    TimerInv (fireInterval w id now uid) := by
  obtain ⟨hpos, hrest, hrun⟩ := h
  unfold fireInterval
  by_cases hm : id ∈ w.activeIntervals
  · rw [if_pos hm]
    cases hr : w.timer.running with
    | false =>
      rw [(hrest hr).1] at hm
      exact absurd hm (List.not_mem_nil _)
    | true =>
      obtain ⟨i, e, hne, hi, ha, he, ht⟩ := hrun hr
      unfold timerTick
      by_cases hl : w.timer.endAt.getD 0 - now ≤ 0
      · simp only [hl, if_true]
        refine ⟨by simpa [clearInterval, hi] using hpos, fun _ => ?_, fun h => by simp at h⟩
        simp [clearInterval, hi, ha]
      · simp only [hl, if_false]
        exact ⟨hpos, hrest, hrun⟩
  · rw [if_neg hm]
    exact ⟨hpos, hrest, hrun⟩

/-- The timer invariant holds in every reachable world. -/
theorem reachable_inv {w : World} (h : Reachable w) : TimerInv w := by
  induction h with
  | init st minutes nextId label h =>
    exact ⟨h, fun _ => ⟨rfl, rfl⟩, fun h => by simp at h⟩
  | toggle w now _ ih =>
    unfold timerToggleClick
    by_cases hl : w.toggleText = "Reset"
    · rw [if_pos hl]; exact (stopTimer_inv w ih).1
    · rw [if_neg hl]
      cases hr : w.timer.running with
      | false => simpa using startTimer_inv w now ih hr
      | true => simpa using (stopTimer_inv w ih).1
  | fire w id now uid _ ih => exact fireInterval_inv w id now uid ih
  | length w len _ ih =>
    unfold timerLengthClick
    cases hr : w.timer.running with
    | true => simpa using ih
    | false =>
      obtain ⟨hpos, hrest, hrun⟩ := ih
      have e : (if false = true then w
          else { w with timer := { w.timer with minutes := len } }) =
          { w with timer := { w.timer with minutes := len } } := by simp
      rw [e]
      exact ⟨hpos, fun _ => hrest hr, fun h => by
        have h' : w.timer.running = true := h
        rw [hr] at h'; cases h'⟩
  | store w st _ ih => exact ih

/-- C2. A timer run is started at `t0` with `m` minutes selected, in a reachable
world whose timer is at rest.  As long as no tick of the run's interval has
reached the end instant, ticks leave the store unchanged.  The first tick of the run's interval at or after the end
instant adds `m` to the study log entry of that tick's day, once, leaves the
other entries alone, and puts one focus-session record with `minutes = m` in
front of the list; whatever ticks follow, the store stays as that tick left
it. -/
theorem timer_completes_once (w : World) (t0 now : Int) (uid : String)
    (before after : List (Nat × Int × String))
    (hreach : Reachable w) (hrest : w.timer.running = false)
    (hbefore : ∀ tk ∈ before,
      tk.1 = w.nextIntervalId → tk.2.1 < t0 + w.timer.minutes * 60 * 1000)
    (hnow : t0 + w.timer.minutes * 60 * 1000 ≤ now) :
    (fireAll (startTimer w t0) before).state = w.state ∧
    (fireAll (startTimer w t0) (before ++ (w.nextIntervalId, now, uid) :: after)).state =
      { addStudyMinutes w.state (toISODate (some now)) w.timer.minutes with
        focusSessions :=
          { id := uid, isoDate := toISODate (some now), minutes := w.timer.minutes,
            endedAt := now } :: w.state.focusSessions } ∧
    getStudyMinutes
        (fireAll (startTimer w t0) (before ++ (w.nextIntervalId, now, uid) :: after)).state
        (toISODate (some now)) =
      getStudyMinutes w.state (toISODate (some now)) + w.timer.minutes ∧
    (∀ other, other ≠ toISODate (some now) →
      getStudyMinutes
          (fireAll (startTimer w t0) (before ++ (w.nextIntervalId, now, uid) :: after)).state
          other = getStudyMinutes w.state other) ∧
    (fireAll (startTimer w t0) (before ++ (w.nextIntervalId, now, uid) :: after)).state =
      (fireAll (startTimer w t0) (before ++ [(w.nextIntervalId, now, uid)])).state := by
  have hidle : w.activeIntervals = [] := ((reachable_inv hreach).2.1 hrest).1
  have hstart : fireAll (startTimer w t0) before = startTimer w t0 :=
    fireAll_before_end before (t0 + w.timer.minutes * 60 * 1000) w.nextIntervalId
      (startTimer w t0) rfl (by simp [startTimer, hidle]) hbefore
  have hle : t0 + w.timer.minutes * 60 * 1000 - now ≤ 0 := by omega
  have hfire : fireInterval (startTimer w t0) w.nextIntervalId now uid =
      { state := { addStudyMinutes w.state (toISODate (some now)) w.timer.minutes with
          focusSessions :=
            { id := uid, isoDate := toISODate (some now), minutes := w.timer.minutes,
              endedAt := now } :: w.state.focusSessions },
        timer := { minutes := w.timer.minutes, running := false,
                   endAt := some (t0 + w.timer.minutes * 60 * 1000), intervalId := none },
        activeIntervals := [],
        nextIntervalId := w.nextIntervalId + 1,
        toggleText := "Reset" } := by
    simp [fireInterval, timerTick, startTimer, clearInterval, hidle, hle, addStudyMinutes]
  have hall : ∀ rest, fireAll (startTimer w t0) (before ++ (w.nextIntervalId, now, uid) :: rest) =
      fireInterval (startTimer w t0) w.nextIntervalId now uid := by
    intro rest
    rw [fireAll_append, hstart]
    show fireAll (fireInterval (startTimer w t0) w.nextIntervalId now uid) rest = _
    apply fireAll_idle
    rw [hfire]
  refine ⟨by rw [hstart]; rfl, ?_, ?_, ?_, ?_⟩
  · rw [hall, hfire]
  · rw [hall, hfire]
    exact getStudyMinutes_addStudyMinutes w.state _ _
  · intro other hne
    rw [hall, hfire]
    exact getStudyMinutes_addStudyMinutes_other w.state _ other _ hne
  · rw [hall, hall]

theorem timer_sample :
    (fireAll (startTimer sampleWorld 0)
      [(1, 1000, "u0"), (1, 1500000, "u1"), (1, 1500250, "u2")]).state =
      { emptyState with
        studyLog := some [("1970-01-01", 25)],
        focusSessions := [{ id := "u1", isoDate := "1970-01-01", minutes := 25,
                            endedAt := 1500000 }] } := by
  decide

theorem sampleWorld_reachable : Reachable sampleWorld :=
  Reachable.init emptyState 25 1 "Start" (by decide)

theorem timer_completes_once_witness :
    Reachable sampleWorld ∧ sampleWorld.timer.running = false ∧
    (∀ tk ∈ [((1 : Nat), (1000 : Int), "u0")],
      tk.1 = sampleWorld.nextIntervalId → tk.2.1 < 0 + sampleWorld.timer.minutes * 60 * 1000) ∧
    (0 + sampleWorld.timer.minutes * 60 * 1000 ≤ 1500000) ∧
    getStudyMinutes
        (fireAll (startTimer sampleWorld 0)
          ([(1, 1000, "u0")] ++ (sampleWorld.nextIntervalId, 1500000, "u1") ::
            [(1, 1500250, "u2")])).state
        (toISODate (some 1500000)) =
      getStudyMinutes sampleWorld.state (toISODate (some 1500000)) + sampleWorld.timer.minutes :=
  ⟨sampleWorld_reachable, rfl, by decide, by decide,
    (timer_completes_once sampleWorld 0 1500000 "u1" [(1, 1000, "u0")] [(1, 1500250, "u2")]
      sampleWorld_reachable rfl (by decide) (by decide)).2.2.1⟩

/-- C9. In every reachable world whose timer is running, exactly the run's
interval is registered; `stopTimer` leaves the store (study log and focus
sessions) unchanged, puts the timer at rest and leaves no interval registered;
whatever ticks the host delivers after the stop, at any instants and for any
interval id, leave the store unchanged. -/
theorem stopTimer_discards (w : World) (stray : List (Nat × Int × String))
    (hreach : Reachable w) (hrun : w.timer.running = true) :
    (∃ id, w.timer.intervalId = some id ∧ w.activeIntervals = [id]) ∧
    (stopTimer w).state = w.state ∧
    (stopTimer w).timer.running = false ∧
    (stopTimer w).activeIntervals = [] ∧
    (fireAll (stopTimer w) stray).state = w.state := by
  obtain ⟨_, hs, ha, hr⟩ := stopTimer_inv w (reachable_inv hreach)
  obtain ⟨id, _, _, hi, hact, _, _⟩ := (reachable_inv hreach).2.2 hrun
  refine ⟨⟨id, hi, hact⟩, hs, hr, ha, ?_⟩
  rw [fireAll_idle stray _ ha, hs]

theorem stopTimer_sample :
    (fireAll (stopTimer (fireAll (startTimer sampleWorld 0) [(1, 1000, "u0")]))
      [(1, 1500000, "u1"), (1, 99999999, "u2")]).state = emptyState := by
  decide

theorem stopTimer_discards_witness :
    Reachable (timerToggleClick sampleWorld 0) ∧
    (timerToggleClick sampleWorld 0).timer.running = true ∧
    (fireAll (stopTimer (timerToggleClick sampleWorld 0))
      [(1, 1500000, "u1"), (1, 99999999, "u2")]).state = (timerToggleClick sampleWorld 0).state :=
  ⟨Reachable.toggle sampleWorld 0 sampleWorld_reachable, by decide,
    (stopTimer_discards (timerToggleClick sampleWorld 0)
      [(1, 1500000, "u1"), (1, 99999999, "u2")]
      (Reachable.toggle sampleWorld 0 sampleWorld_reachable) (by decide)).2.2.2.2⟩

theorem clearInterval_fields (w : World) (id : Option Nat) :
    (clearInterval w id).state = w.state ∧ (clearInterval w id).timer = w.timer := by
  cases id <;> exact ⟨rfl, rfl⟩

theorem stopTimer_fields (w : World) :
    (stopTimer w).state = w.state ∧ (stopTimer w).timer.endAt = none ∧
    (stopTimer w).timer.minutes = w.timer.minutes := by
  cases hi : w.timer.intervalId with
  | none => simp [stopTimer, hi]
  | some i =>
    by_cases h0 : i = 0
    · simp [stopTimer, hi, h0]
    · simp [stopTimer, hi, h0, clearInterval]

/-- The body of the tick callback has no guard of its own: run on a stopped
timer at an instant from the epoch on, it would log a session.  What keeps a
stopped run silent is that `stopTimer` clears the interval. -/
theorem timerTick_body_unguarded (w : World) (now : Int) (uid : String) (h : 0 ≤ now) :
    (timerTick (stopTimer w) now uid).state.focusSessions =
      { id := uid, isoDate := toISODate (some now), minutes := w.timer.minutes,
        endedAt := now } :: w.state.focusSessions := by
  obtain ⟨h1, h2, h3⟩ := stopTimer_fields w
  have hle : (0 : Int) - now ≤ 0 := by omega
  generalize stopTimer w = s at h1 h2 h3
  have hc := clearInterval_fields s s.timer.intervalId
  unfold timerTick
  simp only [h2, Option.getD_none, hle, if_true, hc.1, hc.2, h1, h3, addStudyMinutes]

/-! ## C10: ISO round trip -/

theorem natDigits_four {a b c d : Nat} (ha : 1 ≤ a) (ha9 : a ≤ 9) (hb : b ≤ 9) (hc : c ≤ 9)
    (hd : d ≤ 9) :
    natDigits (1000 * a + 100 * b + 10 * c + d) =
      [digitChar a, digitChar b, digitChar c, digitChar d] := by
  have e1 : (1000 * a + 100 * b + 10 * c + d) / 10 = 100 * a + 10 * b + c := by omega
  have e2 : (1000 * a + 100 * b + 10 * c + d) % 10 = d := by omega
  have e3 : (100 * a + 10 * b + c) / 10 = 10 * a + b := by omega
  have e4 : (100 * a + 10 * b + c) % 10 = c := by omega
  have e5 : (10 * a + b) / 10 = a := by omega
  have e6 : (10 * a + b) % 10 = b := by omega
  rw [natDigits_step (by omega), e1, e2, natDigits_step (by omega), e3, e4,
    natDigits_step (by omega), e5, e6, natDigits_small (by omega)]
  rfl

theorem pad2_two_digits {a b : Nat} (ha : a ≤ 9) (hb : b ≤ 9) :
    pad2 (some ((10 * a + b : Nat) : Int)) = [digitChar a, digitChar b] := by
  have hnn : (0 : Int) ≤ ((10 * a + b : Nat) : Int) := Int.ofNat_nonneg _
  unfold pad2
  simp only [numberToChars, numToChars_nonneg hnn, Int.natAbs_ofNat]
  by_cases h0 : a = 0
  · subst h0
    simp only [Nat.mul_zero, Nat.zero_add]
    rw [natDigits_small (by omega)]
    rfl
  · have e5 : (10 * a + b) / 10 = a := by omega
    have e6 : (10 * a + b) % 10 = b := by omega
    rw [natDigits_two (by omega) (by omega), e5, e6]
    rfl

theorem jsNumber_four {a b c d : Nat} (ha : a ≤ 9) (hb : b ≤ 9) (hc : c ≤ 9) (hd : d ≤ 9) :
    jsNumber [digitChar a, digitChar b, digitChar c, digitChar d] =
      some ((1000 * a + 100 * b + 10 * c + d : Nat) : Int) := by
  simp only [jsNumber, readDigits, digitVal_digitChar _ ha, digitVal_digitChar _ hb,
    digitVal_digitChar _ hc, digitVal_digitChar _ hd, Option.map_some', Option.some.injEq]
  congr 1
  omega

theorem jsNumber_two {a b : Nat} (ha : a ≤ 9) (hb : b ≤ 9) :
    jsNumber [digitChar a, digitChar b] = some ((10 * a + b : Nat) : Int) := by
  simp only [jsNumber, readDigits, digitVal_digitChar _ ha, digitVal_digitChar _ hb,
    Option.map_some', Option.some.injEq]
  congr 1
  omega

theorem no_dash_of_digits (l : List Nat) (h : ∀ k ∈ l, k ≤ 9) : '-' ∉ l.map digitChar := by
  intro hm
  obtain ⟨k, hk, e⟩ := List.mem_map.mp hm
  exact digitChar_ne_dash k (h k hk) e

/-- The calendar fields of the day `MakeDay` builds from a valid date. -/
theorem fields_of_MakeDay {y m d : Int} (hm0 : 1 ≤ m) (hm1 : m ≤ 12) (hd0 : 1 ≤ d)
    (hd1 : d ≤ daysInMonth y m) :
    YearFromTime (MakeDay y (m - 1) d * msPerDay) = y ∧
    MonthFromTime (MakeDay y (m - 1) d * msPerDay) + 1 = m ∧
    DateFromTime (MakeDay y (m - 1) d * msPerDay) = d := by
  have hn := MakeDay_of_month_range y (m - 1) d (by omega) (by omega)
  have hd1' : d ≤ daysInMonth y (m - 1 + 1) := by rwa [sub_add_cancel]
  obtain ⟨h1, h2, h3⟩ := fields_of_day (y := y) (m := m - 1) (d := d)
    (n := MakeDay y (m - 1) d) (by omega) (by omega) hd0 hd1' hn
  have hY : YearFromTime (MakeDay y (m - 1) d * msPerDay) = y := by
    unfold YearFromTime; rw [Day_mul]; exact h1
  have hM : MonthFromTime (MakeDay y (m - 1) d * msPerDay) = m - 1 := by
    unfold MonthFromTime DayWithinYear; rw [hY, Day_mul]; exact h2
  refine ⟨hY, by rw [hM]; ring, ?_⟩
  unfold DateFromTime DayWithinYear
  rw [hM, hY, Day_mul]
  exact h3

/-- What `parseISODate` returns on a syntactically valid ISO date. -/
theorem parseISODate_valid (s : String) (y : Nat) (hv : ValidISODateOfYear s y) :
    ∃ m d : Nat, 1 ≤ m ∧ m ≤ 12 ∧ 1 ≤ d ∧ (d : Int) ≤ daysInMonth (y : Int) (m : Int) ∧
      parseISODate s =
        some (MakeDay (if (0 : Int) ≤ (y : Int) ∧ (y : Int) ≤ 99 then 1900 + (y : Int)
          else (y : Int)) ((m : Int) - 1) (d : Int) * msPerDay) := by
  obtain ⟨y1, y2, y3, y4, m1, m2, d1, d2, h1, h2, h3, h4, h5, h6, h7, h8, hs, hyv, hm0, hm1,
    hd0, hd1⟩ := hv
  have hsplit : s = String.mk ([digitChar y1, digitChar y2, digitChar y3, digitChar y4] ++
      ('-' :: ([digitChar m1, digitChar m2] ++ ('-' :: [digitChar d1, digitChar d2])))) := by
    rw [hs]; rfl
  have ha : '-' ∉ [digitChar y1, digitChar y2, digitChar y3, digitChar y4] :=
    no_dash_of_digits [y1, y2, y3, y4] (by simp [h1, h2, h3, h4])
  have hb : '-' ∉ [digitChar m1, digitChar m2] :=
    no_dash_of_digits [m1, m2] (by simp [h5, h6])
  have hc : '-' ∉ [digitChar d1, digitChar d2] :=
    no_dash_of_digits [d1, d2] (by simp [h7, h8])
  have hparse := parseISODate_fields _ _ _ _ _ _ ha hb hc (jsNumber_four h1 h2 h3 h4)
    (jsNumber_two h5 h6) (jsNumber_two h7 h8)
  rw [← hsplit, ← hyv] at hparse
  exact ⟨10 * m1 + m2, 10 * d1 + d2, hm0, hm1, hd0, hd1, hparse⟩

/-- Every assignment whose due date is a syntactically valid ISO date has a due
date that parses. -/
theorem dueDateOk_of_valid (a : Assignment) (hv : ValidISODate a.dueISO) : DueDateOk a := by
  obtain ⟨y, hy⟩ := hv
  obtain ⟨m, d, _, _, _, _, hp⟩ := parseISODate_valid a.dueISO y hy
  unfold DueDateOk
  rw [hp]
  rfl

/-- C10, amended. For every syntactically valid ISO date `YYYY-MM-DD` whose
year is from 1000 to 9999, `toISODate(parseISODate(s)) = s`. -/
theorem toISODate_parseISODate (s : String) (y : Nat) (hv : ValidISODateOfYear s y)
    (hy : 1000 ≤ y) : toISODate (parseISODate s) = s := by
  obtain ⟨y1, y2, y3, y4, m1, m2, d1, d2, h1, h2, h3, h4, h5, h6, h7, h8, hs, hyv, hm0, hm1,
    hd0, hd1⟩ := hv
  have hy1 : 1 ≤ y1 := by omega
  have hsplit : s = String.mk ([digitChar y1, digitChar y2, digitChar y3, digitChar y4] ++
      ('-' :: ([digitChar m1, digitChar m2] ++ ('-' :: [digitChar d1, digitChar d2])))) := by
    rw [hs]; rfl
  have ha : '-' ∉ [digitChar y1, digitChar y2, digitChar y3, digitChar y4] :=
    no_dash_of_digits [y1, y2, y3, y4] (by simp [h1, h2, h3, h4])
  have hb : '-' ∉ [digitChar m1, digitChar m2] :=
    no_dash_of_digits [m1, m2] (by simp [h5, h6])
  have hc : '-' ∉ [digitChar d1, digitChar d2] :=
    no_dash_of_digits [d1, d2] (by simp [h7, h8])
  have hparse := parseISODate_fields _ _ _ _ _ _ ha hb hc (jsNumber_four h1 h2 h3 h4)
    (jsNumber_two h5 h6) (jsNumber_two h7 h8)
  rw [← hsplit] at hparse
  have hyr : ¬ ((0 : Int) ≤ ((1000 * y1 + 100 * y2 + 10 * y3 + y4 : Nat) : Int) ∧
      ((1000 * y1 + 100 * y2 + 10 * y3 + y4 : Nat) : Int) ≤ 99) := by omega
  rw [if_neg hyr] at hparse
  rw [← hyv] at hparse
  obtain ⟨fY, fM, fD⟩ := fields_of_MakeDay (y := (y : Int))
    (m := ((10 * m1 + m2 : Nat) : Int)) (d := ((10 * d1 + d2 : Nat) : Int))
    (by omega) (by omega) (by omega) hd1
  rw [hparse, toISODate_some, fY, fM, fD, numToChars_nonneg (Int.ofNat_nonneg _),
    Int.natAbs_ofNat, hyv, natDigits_four hy1 h1 h2 h3 h4, pad2_two_digits h5 h6,
    pad2_two_digits h7 h8, hs]
  rfl

/-- C10 as stated fails: `0050-01-01` and `0999-01-01` are valid ISO dates, and
the round trip gives `1950-01-01` (a year from 0 to 99 is read as 1900 + year)
and `999-01-01` (the year is written without leading zeros). -/
theorem toISODate_parseISODate_counterexample :
    ValidISODate "0050-01-01" ∧
    toISODate (parseISODate "0050-01-01") = "1950-01-01" ∧
    toISODate (parseISODate "0050-01-01") ≠ "0050-01-01" ∧
    ValidISODate "0999-01-01" ∧
    toISODate (parseISODate "0999-01-01") = "999-01-01" ∧
    toISODate (parseISODate "0999-01-01") ≠ "0999-01-01" := by
  refine ⟨⟨50, 0, 0, 5, 0, 0, 1, 0, 1, ?_⟩, by decide, by decide,
    ⟨999, 0, 9, 9, 9, 0, 1, 0, 1, ?_⟩, by decide, by decide⟩
  · refine ⟨by decide, by decide, by decide, by decide, by decide, by decide, by decide,
      by decide, by decide, by decide, by decide, by decide, by decide, by decide⟩
  · refine ⟨by decide, by decide, by decide, by decide, by decide, by decide, by decide,
      by decide, by decide, by decide, by decide, by decide, by decide, by decide⟩

theorem toISODate_parseISODate_witness :
    ValidISODateOfYear "2024-02-29" 2024 ∧ 1000 ≤ 2024 ∧
    toISODate (parseISODate "2024-02-29") = "2024-02-29" :=
  have hv : ValidISODateOfYear "2024-02-29" 2024 :=
    ⟨2, 0, 2, 4, 0, 2, 2, 9, by decide, by decide, by decide, by decide, by decide, by decide,
      by decide, by decide, by decide, by decide, by decide, by decide, by decide, by decide⟩
  ⟨hv, by decide, toISODate_parseISODate "2024-02-29" 2024 hv (by decide)⟩

/-! ## C11: day differences -/

/-- C11. For valid dates `a` and `b`, `daysBetween(a, b)` is the signed number
of calendar days from the day of `a` to the day of `b`; `daysBetween(a, a)` is
0 and `daysBetween(a, b) = -daysBetween(b, a)`. -/
theorem daysBetween_spec (a b : Int) :
    daysBetween (some a) (some b) = some (Day b - Day a) ∧
    daysBetween (some a) (some a) = some 0 ∧
    daysBetween (some a) (some b) = (daysBetween (some b) (some a)).map (fun k => -k) := by
  have h : ∀ x y : Int, daysBetween (some x) (some y) = some (Day y - Day x) := by
    intro x y
    have := daysBetween_midnights (Day x) (Day y)
    simpa [daysBetween, setHoursZero, Day_mul] using this
  refine ⟨h a b, by rw [h a a, sub_self], ?_⟩
  rw [h a b, h b a]
  simp

theorem daysBetween_sample :
    daysBetween (parseISODate "1970-03-01") (parseISODate "1970-01-31") = some (-29) ∧
    daysBetween (parseISODate "1970-01-31") (parseISODate "1970-03-01") = some 29 := by
  decide

/-! ## C12: week bounds -/

/-- C12. For every instant `t`, `startOfWeek` is midnight of a Monday, on or
before the day of `t` and at most 6 days before it; `endOfWeek` is that Monday
plus 6 days; the calendar day of `t` lies between the two as dates; and every
day from that Monday to the Sunday after it has the same `startOfWeek` and the
same `endOfWeek`. -/
theorem week_bounds_spec (t : Int) :
    startOfWeek (some t) = some ((Day t - (WeekDay t + 6) % 7) * msPerDay) ∧
    getDay (startOfWeek (some t)) = some 1 ∧
    Day t - (WeekDay t + 6) % 7 ≤ Day t ∧
    Day t ≤ Day t - (WeekDay t + 6) % 7 + 6 ∧
    endOfWeek (some t) = some ((Day t - (WeekDay t + 6) % 7 + 6) * msPerDay) ∧
    daysBetween (startOfWeek (some t)) (endOfWeek (some t)) = some 6 ∧
    dateLe (startOfWeek (some t)) (some t) = true ∧
    dateLe (startOfWeek (midnightOf t)) (midnightOf t) = true ∧
    dateLe (midnightOf t) (endOfWeek (midnightOf t)) = true ∧
    (∀ u : Int, Day t - (WeekDay t + 6) % 7 ≤ Day u → Day u ≤ Day t - (WeekDay t + 6) % 7 + 6 →
      startOfWeek (some u) = startOfWeek (some t) ∧ endOfWeek (some u) = endOfWeek (some t)) := by
  have h0 : 0 ≤ (WeekDay t + 6) % 7 := Int.emod_nonneg _ (by decide)
  have h1 : (WeekDay t + 6) % 7 < 7 := Int.emod_lt_of_pos _ (by decide)
  have hw := week_contains_day t
  refine ⟨startOfWeek_some t, ?_, by omega, by omega, endOfWeek_some t, ?_, ?_, hw.1, hw.2, ?_⟩
  · rw [startOfWeek_some]
    simp only [getDay, Option.map_some', Option.some.injEq]
    unfold WeekDay at *
    rw [Day_mul]
    omega
  · rw [startOfWeek_some, endOfWeek_some, daysBetween_midnights]
    congr 1
    omega
  · rw [startOfWeek_some, dateLe_some]
    have hd := Int.ediv_add_emod t msPerDay
    have hm : 0 ≤ t % msPerDay := Int.emod_nonneg _ (by decide)
    have hmul : (Day t - (WeekDay t + 6) % 7) * msPerDay ≤ Day t * msPerDay :=
      Int.mul_le_mul_of_nonneg_right (by omega) (by decide)
    unfold Day at hmul ⊢
    linarith [Int.mul_comm msPerDay (t / msPerDay)]
  · intro u hu1 hu2
    have e : Day u - (WeekDay u + 6) % 7 = Day t - (WeekDay t + 6) % 7 := by
      unfold WeekDay at *
      omega
    rw [startOfWeek_some, startOfWeek_some, endOfWeek_some, endOfWeek_some, e]
    exact ⟨rfl, rfl⟩

theorem week_bounds_sample :
    toISODate (startOfWeek (parseISODate "1970-01-09")) = "1970-01-05" ∧
    toISODate (endOfWeek (parseISODate "1970-01-09")) = "1970-01-11" ∧
    getDay (parseISODate "1970-01-05") = some 1 := by
  decide

/-! ## C13: the streak does not grow when a completion is removed -/

theorem lookup_filter_ne {β : Type} (iso key : String) (hne : key ≠ iso) :
    ∀ l : List (String × β), (l.filter (fun p => p.1 ≠ iso)).lookup key = l.lookup key := by
  intro l
  induction l with
  | nil => rfl
  | cons p l ih =>
    obtain ⟨k, v⟩ := p
    by_cases hk : k = iso
    · have hb : (key == k) = false := by
        rw [hk]; simpa using hne
      rw [List.filter_cons_of_neg (by simp [hk]), ih]
      simp only [List.lookup, hb]
    · rw [List.filter_cons_of_pos (by simp [hk])]
      cases hb : (key == k)
      · simp only [List.lookup, hb, ih]
      · simp only [List.lookup, hb]

theorem lookup_filter_self {β : Type} (iso : String) :
    ∀ l : List (String × β), (l.filter (fun p => p.1 ≠ iso)).lookup iso = none := by
  intro l
  induction l with
  | nil => rfl
  | cons p l ih =>
    obtain ⟨k, v⟩ := p
    by_cases hk : k = iso
    · rw [List.filter_cons_of_neg (by simp [hk]), ih]
    · have hb : (iso == k) = false := by
        simp only [beq_eq_false_iff_ne, ne_eq]
        exact fun e => hk e.symm
      rw [List.filter_cons_of_pos (by simp [hk])]
      simp only [List.lookup, hb, ih]

theorem habitDoneToday_deleteCompletion (h : Habit) (iso key : String) :
    habitDoneToday (deleteCompletion h iso) key =
      (if key = iso then false else habitDoneToday h key) := by
  unfold habitDoneToday deleteCompletion
  cases hh : h.history with
  | none => simp
  | some entries =>
    by_cases hk : key = iso
    · subst hk
      simp only [Option.map_some', lookup_filter_self, Option.getD_none, if_true]
    · simp only [Option.map_some', lookup_filter_ne iso key hk, hk, if_false]

theorem habitDoneToday_clearCompletion (h : Habit) (iso key : String) :
    habitDoneToday (clearCompletion h iso) key =
      (if key = iso then false else habitDoneToday h key) := by
  unfold habitDoneToday clearCompletion
  by_cases hk : key = iso
  · subst hk; simp [lookup_objSet_self]
  · simp only [lookup_objSet_other iso key false hk, hk, if_false]
    cases h.history <;> simp [List.lookup]

theorem le_streakLoop (habits : List Habit) (today : JSDate) (left : Nat) :
    ∀ i streak : Nat, streak ≤ streakLoop habits today left i streak := by
  induction left with
  | zero => intro i streak; simp [streakLoop]
  | succ left ih =>
    intro i streak
    simp only [streakLoop]
    split_ifs
    · exact Nat.le_trans (Nat.le_succ _) (ih (i + 1) (streak + 1))
    · exact Nat.le_refl _

/-- The loop of `computeStreak` gives no more on a habit list that is all-done
on no more days. -/
theorem streakLoop_mono (habits habits' : List Habit) (today : JSDate)
    (hle : ∀ iso, (habits'.all fun h => habitDoneToday h iso) = true →
      (habits.all fun h => habitDoneToday h iso) = true)
    (left : Nat) :
    ∀ i streak : Nat,
      streakLoop habits' today left i streak ≤ streakLoop habits today left i streak := by
  induction left with
  | zero => intro i streak; simp [streakLoop]
  | succ left ih =>
    intro i streak
    simp only [streakLoop]
    by_cases h' : (habits'.all fun h =>
        habitDoneToday h (toISODate (setDate today ((getDate today).map (· - (i : Int)))))) = true
    · rw [if_pos h', if_pos (hle _ h')]
      exact ih (i + 1) (streak + 1)
    · rw [if_neg h']
      split_ifs
      · exact Nat.le_trans (Nat.le_succ _) (le_streakLoop habits today left (i + 1) (streak + 1))
      · exact Nat.le_refl _

/-- Replacing one habit of the list by one that is done on no more days does
not raise the streak. -/
theorem computeStreak_replace_le (st : State) (now : Int) (pre post : List Habit)
    (h h' : Habit) (hl : st.habits = pre ++ h :: post)
    (hle : ∀ iso, habitDoneToday h' iso = true → habitDoneToday h iso = true) :
    computeStreak { st with habits := pre ++ h' :: post } now ≤ computeStreak st now := by
  unfold computeStreak
  have h1 : ¬ (pre ++ h' :: post).length = 0 := by simp
  have h2 : ¬ st.habits.length = 0 := by rw [hl]; simp
  simp only [h1, h2, if_false]
  apply streakLoop_mono
  intro iso hall
  rw [hl]
  simp only [List.all_append, List.all_cons, Bool.and_eq_true] at hall ⊢
  exact ⟨hall.1, hle iso hall.2.1, hall.2.2⟩

/-- C13. For every habit list, every today, every habit `h` of the list and
every day `iso`, the streak computed after `h`'s completion on that day is
removed, by deleting the history entry or by setting it to `false`, the rest
being equal, is at most the streak computed before. -/
theorem computeStreak_remove_le (st : State) (now : Int) (pre post : List Habit) (h : Habit)
    (iso : String) (hl : st.habits = pre ++ h :: post) :
    computeStreak { st with habits := pre ++ deleteCompletion h iso :: post } now ≤
      computeStreak st now ∧
    computeStreak { st with habits := pre ++ clearCompletion h iso :: post } now ≤
      computeStreak st now := by
  constructor
  · apply computeStreak_replace_le st now pre post h _ hl
    intro key hk
    rw [habitDoneToday_deleteCompletion] at hk
    split_ifs at hk
    exact hk
  · apply computeStreak_replace_le st now pre post h _ hl
    intro key hk
    rw [habitDoneToday_clearCompletion] at hk
    split_ifs at hk
    exact hk

theorem computeStreak_remove_sample :
    computeStreak sampleHabitState sampleNow = 2 ∧
    computeStreak { sampleHabitState with
        habits := [deleteCompletion sampleHabit1 "1970-01-02", sampleHabit2] } sampleNow = 1 ∧
    computeStreak { sampleHabitState with
        habits := [sampleHabit1, clearCompletion sampleHabit2 "1970-01-03"] } sampleNow = 0 := by
  decide

theorem computeStreak_remove_le_witness :
    sampleHabitState.habits = [] ++ sampleHabit1 :: [sampleHabit2] ∧
    computeStreak { sampleHabitState with
        habits := [] ++ deleteCompletion sampleHabit1 "1970-01-02" :: [sampleHabit2] }
        sampleNow ≤
      computeStreak sampleHabitState sampleNow :=
  ⟨by decide, (computeStreak_remove_le sampleHabitState sampleNow [] [sampleHabit2]
    sampleHabit1 "1970-01-02" (by decide)).1⟩

theorem toggleFirstHabit_split (habitId iso : String) (h : Habit) (post : List Habit)
    (hid : h.id = habitId) :
    ∀ pre : List Habit, (∀ x ∈ pre, x.id ≠ habitId) →
      toggleFirstHabit habitId iso (pre ++ h :: post) = pre ++ toggleHabitEntry h iso :: post := by
  intro pre
  induction pre with
  | nil => intro _; simp [toggleFirstHabit, hid]
  | cons x pre ih =>
    intro hpre
    have hx : x.id ≠ habitId := hpre x (List.mem_cons_self _ _)
    rw [List.cons_append, toggleFirstHabit, if_neg hx,
      ih (fun y hy => hpre y (List.mem_cons_of_mem _ hy))]
    rfl

/-- Toggling off a habit that is done today, as `toggleHabitToday` does, does
not raise the streak. -/
theorem computeStreak_toggle_off_le (st : State) (now : Int) (habitId : String)
    (pre post : List Habit) (h : Habit) (hl : st.habits = pre ++ h :: post)
    (hpre : ∀ x ∈ pre, x.id ≠ habitId) (hid : h.id = habitId)
    (hdone : habitDoneToday h (toISODate (some now)) = true) :
    computeStreak (toggleHabitToday st habitId now) now ≤ computeStreak st now := by
  have he : toggleHabitEntry h (toISODate (some now)) =
      clearCompletion h (toISODate (some now)) := by
    unfold habitDoneToday at hdone
    unfold toggleHabitEntry clearCompletion
    cases hh : h.history with
    | none => rw [hh] at hdone; simp at hdone
    | some entries =>
      rw [hh] at hdone
      simp only at hdone
      simp [hdone]
  have hst : toggleHabitToday st habitId now =
      { st with habits := pre ++ clearCompletion h (toISODate (some now)) :: post } := by
    unfold toggleHabitToday
    simp only [hl, toggleFirstHabit_split habitId _ h post hid pre hpre, he]
  rw [hst]
  apply computeStreak_replace_le st now pre post h _ hl
  intro key hk
  rw [habitDoneToday_clearCompletion] at hk
  split_ifs at hk
  exact hk

/-! ## C14: the habit completion ratio -/

/-- C14. The habit completion ratio `pctHabits / 100` of `renderToday` is
`doneHabits / totalHabits`, between 0 and 1, when there is at least one habit,
and is 0, through the guard and without a division, when there is none;
`doneHabits` counts the habits whose history entry for today is truthy and is
at most `totalHabits`. -/
theorem habitCompletionRatio_spec (st : State) (now : Int) :
    (renderHabitRing st now).totalHabits = st.habits.length ∧
    (renderHabitRing st now).doneHabits =
      (st.habits.filter (fun h => habitDoneToday h (toISODate (some now)))).length ∧
    (renderHabitRing st now).doneHabits ≤ (renderHabitRing st now).totalHabits ∧
    (st.habits ≠ [] →
      habitCompletionRatio st now =
        ((renderHabitRing st now).doneHabits : ℚ) / ((renderHabitRing st now).totalHabits : ℚ) ∧
      0 ≤ habitCompletionRatio st now ∧ habitCompletionRatio st now ≤ 1) ∧
    (st.habits = [] →
      (renderHabitRing st now).pctHabits = 0 ∧ habitCompletionRatio st now = 0) := by
  have hle : (st.habits.filter (fun h => habitDoneToday h (toISODate (some now)))).length ≤
      st.habits.length := List.length_filter_le _ _
  refine ⟨rfl, rfl, hle, ?_, ?_⟩
  · intro hne
    have hlen : st.habits.length ≠ 0 := fun e => hne (List.length_eq_zero.mp e)
    have hpos : (0 : ℚ) < (st.habits.length : ℚ) := by
      exact_mod_cast Nat.pos_of_ne_zero hlen
    have hr : habitCompletionRatio st now =
        ((st.habits.filter (fun h => habitDoneToday h (toISODate (some now)))).length : ℚ) /
          (st.habits.length : ℚ) := by
      unfold habitCompletionRatio renderHabitRing
      simp only [hlen, ne_eq, not_false_eq_true, if_true]
      ring
    refine ⟨hr, ?_, ?_⟩
    · rw [hr]
      exact div_nonneg (Nat.cast_nonneg _) (le_of_lt hpos)
    · rw [hr, div_le_one hpos]
      exact_mod_cast hle
  · intro he
    unfold habitCompletionRatio renderHabitRing
    simp [he]

theorem habitCompletionRatio_sample :
    (renderHabitRing sampleHabitState sampleNow).doneHabits = 2 ∧
    (renderHabitRing sampleHabitState 0).doneHabits = 1 ∧
    (renderHabitRing sampleHabitState 0).totalHabits = 2 ∧
    (renderHabitRing emptyState 0).totalHabits = 0 := by
  decide

theorem habitCompletionRatio_spec_witness :
    sampleHabitState.habits ≠ [] ∧
    0 ≤ habitCompletionRatio sampleHabitState sampleNow ∧
    habitCompletionRatio sampleHabitState sampleNow ≤ 1 :=
  ⟨by decide, ((habitCompletionRatio_spec sampleHabitState sampleNow).2.2.2.1 (by decide)).2⟩

/-! ## C3, C4, C5: the listing and the next-up assignment, by calendar due date -/

theorem monthStart_mono (a b l : Int) (hab : a ≤ b) (hl0 : 0 ≤ l) :
    monthStart a l ≤ monthStart b l := by
  have h1 := monthStart_cases_aux a l _ rfl
  have h2 := monthStart_cases_aux b l _ rfl
  generalize monthStart a l = u at h1 ⊢
  generalize monthStart b l = v at h2 ⊢
  omega

/-- A valid day of month `m` lies before the first day of the next month, and
before the end of the year. -/
theorem monthStart_next (y m d : Int) (hm0 : 1 ≤ m) (hm1 : m ≤ 12) (hd1 : d ≤ daysInMonth y m) :
    (m ≤ 11 → monthStart (m - 1) (leapOfYear y) + d ≤ monthStart m (leapOfYear y)) ∧
    monthStart (m - 1) (leapOfYear y) + d ≤ 365 + leapOfYear y := by
  have hl := leapOfYear_range y
  have hdim : (m = 2 ∧ d ≤ 28 + leapOfYear y) ∨ ((m = 4 ∨ m = 6 ∨ m = 9 ∨ m = 11) ∧ d ≤ 30) ∨
      (m ≠ 2 ∧ m ≠ 4 ∧ m ≠ 6 ∧ m ≠ 9 ∧ m ≠ 11 ∧ d ≤ 31) := by
    unfold daysInMonth at hd1
    split_ifs at hd1 with c1 c2
    · left; omega
    · right; left; omega
    · right; right; omega
  have h1 := monthStart_cases_aux (m - 1) (leapOfYear y) _ rfl
  have h2 := monthStart_cases_aux m (leapOfYear y) _ rfl
  generalize monthStart (m - 1) (leapOfYear y) = u at h1 ⊢
  generalize monthStart m (leapOfYear y) = v at h2 ⊢
  generalize leapOfYear y = l at *
  omega

/-- `MakeDay` is strictly increasing in the calendar order of valid days. -/
theorem MakeDay_lt_of_before (y m d y2 m2 d2 : Int) (hm0 : 1 ≤ m) (hm1 : m ≤ 12)
    (hd1 : d ≤ daysInMonth y m) (hn0 : 1 ≤ m2) (hn1 : m2 ≤ 12) (he0 : 1 ≤ d2)
    (hlt : y < y2 ∨ (y = y2 ∧ (m < m2 ∨ (m = m2 ∧ d < d2)))) :
    MakeDay y (m - 1) d < MakeDay y2 (m2 - 1) d2 := by
  rw [MakeDay_of_month_range y (m - 1) d (by omega) (by omega),
    MakeDay_of_month_range y2 (m2 - 1) d2 (by omega) (by omega)]
  have hl := leapOfYear_range y
  have hl2 := leapOfYear_range y2
  have hnext := monthStart_next y m d hm0 hm1 hd1
  have hpos := monthStart_mono 0 (m2 - 1) (leapOfYear y2) (by omega) (by omega)
  have hzero : monthStart 0 (leapOfYear y2) = 0 := by unfold monthStart; simp
  rcases hlt with h | ⟨h, h2⟩
  · have hs := DayFromYear_succ y
    have hmono := DayFromYear_mono (show y + 1 ≤ y2 by omega)
    omega
  · subst h
    rcases h2 with h2 | ⟨h2, h3⟩
    · have hmono := monthStart_mono m (m2 - 1) (leapOfYear y) (by omega) (by omega)
      have := hnext.1 (by omega)
      omega
    · subst h2
      omega

theorem digitChar_inj {a b : Nat} (ha : a ≤ 9) (hb : b ≤ 9) (h : digitChar a = digitChar b) :
    a = b := by
  have h1 := digitVal_digitChar a ha
  rw [h, digitVal_digitChar b hb] at h1
  exact (Option.some.inj h1).symm

/-- A text is the ISO date of one calendar day only. -/
theorem isISODate_unique {s : String} {y m d y2 m2 d2 : Nat} (h1 : IsISODate s y m d)
    (h2 : IsISODate s y2 m2 d2) : y = y2 ∧ m = m2 ∧ d = d2 := by
  obtain ⟨a1, a2, a3, a4, a5, a6, a7, a8, ha1, ha2, ha3, ha4, ha5, ha6, ha7, ha8, hs, hy, hm,
    hd, _⟩ := h1
  obtain ⟨b1, b2, b3, b4, b5, b6, b7, b8, hb1, hb2, hb3, hb4, hb5, hb6, hb7, hb8, hs2, hy2,
    hm2, hd2, _⟩ := h2
  have e := congrArg String.data (hs.symm.trans hs2)
  unfold isoOfDigits at e
  simp only [List.cons.injEq, and_true, true_and] at e
  obtain ⟨e1, e2, e3, e4, e5, e6, e7, e8⟩ := e
  have := digitChar_inj ha1 hb1 e1
  have := digitChar_inj ha2 hb2 e2
  have := digitChar_inj ha3 hb3 e3
  have := digitChar_inj ha4 hb4 e4
  have := digitChar_inj ha5 hb5 e5
  have := digitChar_inj ha6 hb6 e6
  have := digitChar_inj ha7 hb7 e7
  have := digitChar_inj ha8 hb8 e8
  omega

theorem isISODate_valid {s : String} {y m d : Nat} (h : IsISODate s y m d) :
    ValidISODateOfYear s y := by
  obtain ⟨y1, y2, y3, y4, m1, m2, d1, d2, h1, h2, h3, h4, h5, h6, h7, h8, hs, hy, hm, hd,
    hm0, hm1, hd0, hd1⟩ := h
  subst hm hd
  exact ⟨y1, y2, y3, y4, m1, m2, d1, d2, h1, h2, h3, h4, h5, h6, h7, h8, hs, hy, hm0, hm1,
    hd0, hd1⟩

/-- What `parseISODate` returns on the ISO date of a calendar day of a year
from 0100 on: the midnight of that day. -/
theorem parseISODate_isISODate {s : String} {y m d : Nat} (h : IsISODate s y m d)
    (hy : 100 ≤ y) : parseISODate s = midnightOfDay y m d := by
  obtain ⟨y1, y2, y3, y4, m1, m2, d1, d2, h1, h2, h3, h4, h5, h6, h7, h8, hs, hyv, hm, hd,
    hm0, hm1, hd0, hd1⟩ := h
  have hsplit : s = String.mk ([digitChar y1, digitChar y2, digitChar y3, digitChar y4] ++
      ('-' :: ([digitChar m1, digitChar m2] ++ ('-' :: [digitChar d1, digitChar d2])))) := by
    rw [hs]; rfl
  have ha : '-' ∉ [digitChar y1, digitChar y2, digitChar y3, digitChar y4] :=
    no_dash_of_digits [y1, y2, y3, y4] (by simp [h1, h2, h3, h4])
  have hb : '-' ∉ [digitChar m1, digitChar m2] :=
    no_dash_of_digits [m1, m2] (by simp [h5, h6])
  have hc : '-' ∉ [digitChar d1, digitChar d2] :=
    no_dash_of_digits [d1, d2] (by simp [h7, h8])
  have hparse := parseISODate_fields _ _ _ _ _ _ ha hb hc (jsNumber_four h1 h2 h3 h4)
    (jsNumber_two h5 h6) (jsNumber_two h7 h8)
  rw [← hsplit, ← hyv, ← hm, ← hd] at hparse
  have hyr : ¬ ((0 : Int) ≤ (y : Int) ∧ (y : Int) ≤ 99) := by omega
  rw [if_neg hyr] at hparse
  exact hparse

/-- For ISO dates of years from 0100 on, the order of the parsed dates is the
calendar order of the days. -/
theorem dateLe_parse_iff {s t : String} {y m d y2 m2 d2 : Nat} (hs : IsISODate s y m d)
    (ht : IsISODate t y2 m2 d2) (hy : 100 ≤ y) (hy2 : 100 ≤ y2) :
    dateLe (parseISODate s) (parseISODate t) = true ↔ DayOnOrBefore y m d y2 m2 d2 := by
  rw [parseISODate_isISODate hs hy, parseISODate_isISODate ht hy2]
  unfold midnightOfDay DayOnOrBefore
  rw [dateLe_some, mul_le_mul_right msPerDay_pos]
  obtain ⟨_, _, _, _, _, _, _, _, _, _, _, _, _, _, _, _, _, _, _, _, am0, am1, ad0, ad1⟩ := hs
  obtain ⟨_, _, _, _, _, _, _, _, _, _, _, _, _, _, _, _, _, _, _, _, bm0, bm1, bd0, bd1⟩ := ht
  constructor
  · intro hle
    by_contra hn
    have hlt := MakeDay_lt_of_before (y2 : Int) m2 d2 y m d (by omega) (by omega) bd1
      (by omega) (by omega) (by omega) (by omega)
    omega
  · intro hb
    by_cases heq : y = y2 ∧ m = m2 ∧ d = d2
    · obtain ⟨e1, e2, e3⟩ := heq
      subst e1 e2 e3
      exact le_refl _
    · have hlt := MakeDay_lt_of_before (y : Int) m d y2 m2 d2 (by omega) (by omega) ad1
        (by omega) (by omega) (by omega) (by omega)
      omega

theorem dueDateOk_of_from100 {a : Assignment} (h : DueDateFrom100 a) : DueDateOk a := by
  obtain ⟨y, m, d, hs, _⟩ := h
  exact dueDateOk_of_valid a ⟨y, isISODate_valid hs⟩

theorem dueOnOrBefore_of_dateLe {a b : Assignment} (ha : DueDateFrom100 a)
    (hb : DueDateFrom100 b)
    (h : dateLe (parseISODate a.dueISO) (parseISODate b.dueISO) = true) :
    DueOnOrBefore a.dueISO b.dueISO := by
  obtain ⟨y, m, d, hs, hy⟩ := ha
  obtain ⟨y2, m2, d2, ht, hy2⟩ := hb
  exact ⟨y, m, d, y2, m2, d2, hs, ht, (dateLe_parse_iff hs ht hy hy2).mp h⟩

theorem isISODate_0099_12_31 : IsISODate "0099-12-31" 99 12 31 :=
  ⟨0, 0, 9, 9, 1, 2, 3, 1, by decide⟩

theorem isISODate_0100_01_01 : IsISODate "0100-01-01" 100 1 1 :=
  ⟨0, 1, 0, 0, 0, 1, 0, 1, by decide⟩

theorem isISODate_1970_01_05 : IsISODate "1970-01-05" 1970 1 5 :=
  ⟨1, 9, 7, 0, 0, 1, 0, 5, by decide⟩

theorem isISODate_1970_01_09 : IsISODate "1970-01-09" 1970 1 9 :=
  ⟨1, 9, 7, 0, 0, 1, 0, 9, by decide⟩

theorem isISODate_1970_01_10 : IsISODate "1970-01-10" 1970 1 10 :=
  ⟨1, 9, 7, 0, 0, 1, 1, 0, by decide⟩

/-- The day 0099-12-31 is the day before 0100-01-01. -/
theorem dueOnOrBefore_century : DueOnOrBefore "0099-12-31" "0100-01-01" :=
  ⟨99, 12, 31, 100, 1, 1, isISODate_0099_12_31, isISODate_0100_01_01, by
    unfold DayOnOrBefore; decide⟩

/-- The day 0100-01-01 is not on or before 0099-12-31. -/
theorem not_dueOnOrBefore_century : ¬ DueOnOrBefore "0100-01-01" "0099-12-31" := by
  rintro ⟨y, m, d, y2, m2, d2, hs, ht, hb⟩
  obtain ⟨e1, e2, e3⟩ := isISODate_unique hs isISODate_0100_01_01
  obtain ⟨f1, f2, f3⟩ := isISODate_unique ht isISODate_0099_12_31
  unfold DayOnOrBefore at hb
  omega

/-- C3 as stated fails: the open assignments due 0099-12-31 and 0100-01-01 have
valid ISO due dates, and `sortedAssignments` lists the one due 0100-01-01 before
the one due 0099-12-31 (`new Date(99, 11, 31)` is a day of 1999), so due dates
decrease within the group of open entries. -/
theorem sortedAssignments_century_counterexample :
    ValidISODate "0099-12-31" ∧ ValidISODate "0100-01-01" ∧
    sampleCenturyState.assignments.map (fun a => (a.dueISO, a.done)) =
      [("0099-12-31", false), ("0100-01-01", false)] ∧
    (sortedAssignments sampleCenturyState).1.map (fun a => (a.dueISO, a.done)) =
      [("0100-01-01", false), ("0099-12-31", false)] ∧
    DueOnOrBefore "0099-12-31" "0100-01-01" ∧
    ¬ DueOnOrBefore "0100-01-01" "0099-12-31" :=
  ⟨⟨99, isISODate_valid isISODate_0099_12_31⟩, ⟨100, isISODate_valid isISODate_0100_01_01⟩,
    by decide, by decide, dueOnOrBefore_century, not_dueOnOrBefore_century⟩

/-- C3, amended. For every assignment list whose due dates are valid ISO dates
`YYYY-MM-DD` of years 0100 to 9999, `sortedAssignments` returns a permutation of
the list in which no done entry stands before an open one and, among entries
with the same `done` flag, each is due on or before (in calendar order) the
entries after it; entries with the same flag and the same due date keep their
order from the input; the state (and with it the input list) is unchanged. -/
theorem sortedAssignments_by_due_date (st : State)
    (hwf : ∀ a ∈ st.assignments, DueDateFrom100 a) :
    (sortedAssignments st).1.Perm st.assignments ∧
    (sortedAssignments st).1.Pairwise (fun a b =>
      (a.done = true → b.done = true) ∧
      (a.done = b.done → DueOnOrBefore a.dueISO b.dueISO)) ∧
    (∀ (flag : Bool) (due : String),
      (sortedAssignments st).1.filter (fun a => decide (a.done = flag ∧ a.dueISO = due)) =
        st.assignments.filter (fun a => decide (a.done = flag ∧ a.dueISO = due))) ∧
    (sortedAssignments st).2 = st := by
  have hok : ∀ a ∈ st.assignments, DueDateOk a := fun a ha => dueDateOk_of_from100 (hwf a ha)
  obtain ⟨hperm, hpair, _, hst⟩ := sortedAssignments_parsed st hok
  refine ⟨hperm, ?_, ?_, hst⟩
  · refine List.Pairwise.imp_of_mem ?_ hpair
    intro a b ha hb hab
    exact ⟨hab.1, fun e => dueOnOrBefore_of_dateLe (hwf a (hperm.mem_iff.mp ha))
      (hwf b (hperm.mem_iff.mp hb)) (hab.2 e)⟩
  · intro flag due
    apply jsSort_filter
    intro a ha b hb hpa hpb
    have ha' := of_decide_eq_true hpa
    have hb' := of_decide_eq_true hpb
    rw [assignmentCompare_stays (hok a ha) (hok b hb)]
    right
    refine ⟨by rw [ha'.1, hb'.1], ?_⟩
    have hoka := hok a ha
    unfold DueDateOk at hoka
    obtain ⟨x, hx⟩ := Option.isSome_iff_exists.mp hoka
    rw [hb'.2, ← ha'.2, hx, dateLe_some]

theorem sortedAssignments_by_due_date_witness :
    (∀ a ∈ sampleAssignmentState.assignments, DueDateFrom100 a) ∧
    (sortedAssignments sampleAssignmentState).1.Perm sampleAssignmentState.assignments ∧
    (sortedAssignments sampleAssignmentState).1.Pairwise (fun a b =>
      (a.done = true → b.done = true) ∧
      (a.done = b.done → DueOnOrBefore a.dueISO b.dueISO)) ∧
    (∀ (flag : Bool) (due : String),
      (sortedAssignments sampleAssignmentState).1.filter
          (fun a => decide (a.done = flag ∧ a.dueISO = due)) =
        sampleAssignmentState.assignments.filter
          (fun a => decide (a.done = flag ∧ a.dueISO = due))) ∧
    (sortedAssignments sampleAssignmentState).2 = sampleAssignmentState :=
  have hwf : ∀ a ∈ sampleAssignmentState.assignments, DueDateFrom100 a := by
    intro a ha
    simp only [sampleAssignmentState, sampleAssignments, List.mem_cons, List.mem_singleton,
      List.not_mem_nil, or_false] at ha
    rcases ha with rfl | rfl | rfl
    · exact ⟨1970, 1, 10, isISODate_1970_01_10, by decide⟩
    · exact ⟨1970, 1, 9, isISODate_1970_01_09, by decide⟩
    · exact ⟨1970, 1, 5, isISODate_1970_01_05, by decide⟩
  ⟨hwf, sortedAssignments_by_due_date sampleAssignmentState hwf⟩

/-- C4 as stated fails: of the open assignments due 0099-12-31 and 0100-01-01,
both valid ISO dates, `nextUpAssignment` returns the one due 0100-01-01, which
is not the earliest due date. -/
theorem nextUpAssignment_century_counterexample :
    ValidISODate "0099-12-31" ∧ ValidISODate "0100-01-01" ∧
    sampleCenturyState.assignments.map (fun a => (a.id, a.dueISO, a.done)) =
      [("c1", "0099-12-31", false), ("c2", "0100-01-01", false)] ∧
    (nextUpAssignment sampleCenturyState sampleNow).map
      (fun r => (r.assignment.id, r.assignment.dueISO)) = some ("c2", "0100-01-01") ∧
    DueOnOrBefore "0099-12-31" "0100-01-01" ∧
    ¬ DueOnOrBefore "0100-01-01" "0099-12-31" :=
  ⟨⟨99, isISODate_valid isISODate_0099_12_31⟩, ⟨100, isISODate_valid isISODate_0100_01_01⟩,
    by decide, by decide, dueOnOrBefore_century, not_dueOnOrBefore_century⟩

/-- C4, amended. For every instant `now` and every assignment list,
`nextUpAssignment` returns `null` exactly when the list has no open assignment.
When the due dates of the open assignments are valid ISO dates `YYYY-MM-DD` of
years 0100 to 9999, the assignment it returns is an open assignment of the list
that is due on or before (in calendar order) every open assignment, and
`diffDays` is `daysBetween(today, due)` with `due` the midnight of the calendar
day of its due date. -/
theorem nextUpAssignment_earliest_due (st : State) (now : Int) :
    (nextUpAssignment st now = none ↔ ∀ a ∈ st.assignments, a.done = true) ∧
    ((∀ a ∈ st.assignments, a.done = false → DueDateFrom100 a) →
      ∀ r, nextUpAssignment st now = some r →
        r.assignment ∈ st.assignments ∧ r.assignment.done = false ∧
        (∀ b ∈ st.assignments, b.done = false →
          DueOnOrBefore r.assignment.dueISO b.dueISO) ∧
        ∃ y m d : Nat, IsISODate r.assignment.dueISO y m d ∧
          r.diffDays =
            daysBetween (parseISODate (toISODate (some now))) (midnightOfDay y m d)) := by
  obtain ⟨h1, h2⟩ := nextUpAssignment_parsed st now
  refine ⟨h1, ?_⟩
  intro hwf r hr
  obtain ⟨hm, hd, hmin, hdiff⟩ :=
    h2 (fun a ha hda => dueDateOk_of_from100 (hwf a ha hda)) r hr
  obtain ⟨y, m, d, hs, hy⟩ := hwf _ hm hd
  refine ⟨hm, hd, fun b hb hbd =>
    dueOnOrBefore_of_dateLe (hwf _ hm hd) (hwf b hb hbd) (hmin b hb hbd), ?_⟩
  exact ⟨y, m, d, hs, by rw [hdiff, parseISODate_isISODate hs hy]⟩

theorem nextUpAssignment_earliest_due_witness :
    (∀ a ∈ sampleAssignmentState.assignments, a.done = false → DueDateFrom100 a) ∧
    (nextUpAssignment sampleAssignmentState sampleNow = none ↔
      ∀ a ∈ sampleAssignmentState.assignments, a.done = true) ∧
    (∀ b ∈ sampleAssignmentState.assignments, b.done = false →
      DueOnOrBefore "1970-01-05" b.dueISO) ∧
    (∃ y m d : Nat, IsISODate "1970-01-05" y m d ∧
      some 2 = daysBetween (parseISODate (toISODate (some sampleNow))) (midnightOfDay y m d)) :=
  have hwf : ∀ a ∈ sampleAssignmentState.assignments, a.done = false → DueDateFrom100 a := by
    intro a ha _
    simp only [sampleAssignmentState, sampleAssignments, List.mem_cons, List.mem_singleton,
      List.not_mem_nil, or_false] at ha
    rcases ha with rfl | rfl | rfl
    · exact ⟨1970, 1, 10, isISODate_1970_01_10, by decide⟩
    · exact ⟨1970, 1, 9, isISODate_1970_01_09, by decide⟩
    · exact ⟨1970, 1, 5, isISODate_1970_01_05, by decide⟩
  ⟨hwf, (nextUpAssignment_earliest_due sampleAssignmentState sampleNow).1,
    ((nextUpAssignment_earliest_due sampleAssignmentState sampleNow).2 hwf
      { assignment := { id := "a3", title := "HW 3", course := "",
                        dueISO := "1970-01-05", done := false },
        diffDays := some 2 } (by decide)).2.2⟩

/-- C5 as stated fails.  Of two open assignments with the same due date,
submitted "first" then "second", `nextUpAssignment` returns the one submitted
second.  And of the submissions "A" and "B" due 0099-12-31 and then "C" due
0100-01-01, all valid ISO dates, it returns "C", which does not share the
earliest due date. -/
theorem nextUp_tie_counterexample :
    (submitAll emptyState sampleRequests).assignments.map (fun a => (a.id, a.dueISO, a.done)) =
      [("second", "1970-01-09", false), ("first", "1970-01-09", false)] ∧
    (nextUpAssignment (submitAll emptyState sampleRequests) sampleNow).map
      (fun r => r.assignment.id) = some "second" ∧
    (submitAll emptyState sampleCenturyRequests).assignments.map
        (fun a => (a.id, a.dueISO, a.done)) =
      [("C", "0100-01-01", false), ("B", "0099-12-31", false), ("A", "0099-12-31", false)] ∧
    (nextUpAssignment (submitAll emptyState sampleCenturyRequests) sampleNow).map
      (fun r => r.assignment.id) = some "C" ∧
    ValidISODate "0099-12-31" ∧ ValidISODate "0100-01-01" ∧
    ¬ DueOnOrBefore "0100-01-01" "0099-12-31" :=
  ⟨by decide, by decide, by decide, by decide,
    ⟨99, isISODate_valid isISODate_0099_12_31⟩, ⟨100, isISODate_valid isISODate_0100_01_01⟩,
    not_dueOnOrBefore_century⟩

/-- C5, amended. In a store built from the empty store by submissions of the
add-assignment form whose accepted due dates are valid ISO dates `YYYY-MM-DD` of
years 0100 to 9999, the assignment `nextUpAssignment` returns is an open
assignment of the store that is due on or before (in calendar order) every open
assignment, so it has the earliest due date; it stands in the list before every
other assignment with its due date; and no submission accepted after it has its
due date.  Among the assignments that share the earliest due date the one that
comes first in list order wins, which is the one inserted last. -/
theorem nextUp_tie_last_inserted (reqs : List AddRequest) (now : Int) (r : NextUp)
    (hwf : ∀ b ∈ reqs.filterMap recordOf, DueDateFrom100 b)
    (hr : nextUpAssignment (submitAll emptyState reqs) now = some r) :
    r.assignment ∈ (submitAll emptyState reqs).assignments ∧ r.assignment.done = false ∧
    (∀ b ∈ (submitAll emptyState reqs).assignments, b.done = false →
      DueOnOrBefore r.assignment.dueISO b.dueISO) ∧
    (∃ pre post, (submitAll emptyState reqs).assignments = pre ++ r.assignment :: post ∧
      ∀ b ∈ pre, b.dueISO ≠ r.assignment.dueISO) ∧
    (∃ earlier later, reqs.filterMap recordOf = earlier ++ r.assignment :: later ∧
      ∀ b ∈ later, b.dueISO ≠ r.assignment.dueISO) := by
  have hdone : ∀ b ∈ reqs.filterMap recordOf, b.done = false := by
    intro b hb
    obtain ⟨q, _, hq⟩ := List.mem_filterMap.mp hb
    unfold recordOf at hq
    split_ifs at hq
    simp only [Option.some.injEq] at hq
    rw [← hq]
  have hassign := submitAll_assignments reqs emptyState
  have hempty : emptyState.assignments = [] := rfl
  rw [hempty, List.append_nil] at hassign
  have hall : ∀ b ∈ (submitAll emptyState reqs).assignments, b ∈ reqs.filterMap recordOf := by
    intro b hb
    rw [hassign] at hb
    exact List.mem_reverse.mp hb
  unfold nextUpAssignment at hr
  simp only at hr
  cases hs : jsSort dueCompare ((submitAll emptyState reqs).assignments.filter
      (fun a => !a.done)) with
  | nil => rw [hs] at hr; cases hr
  | cons a rest =>
    rw [hs] at hr
    simp only [Option.some.injEq] at hr
    subst hr
    simp only
    obtain ⟨hm, hd, hmin⟩ := pending_head_min (submitAll emptyState reqs).assignments a rest
      (fun b hb _ => dueDateOk_of_from100 (hwf b (hall b hb))) hs
    obtain ⟨pre, post, hl, hpre⟩ :=
      pending_head_first (submitAll emptyState reqs).assignments a rest hs
    have hpre' : ∀ b ∈ pre, b.dueISO ≠ a.dueISO := by
      intro b hb e
      have hmem : b ∈ (submitAll emptyState reqs).assignments := by
        rw [hl]; exact List.mem_append_left _ hb
      exact hpre b hb (hdone b (hall b hmem)) (by rw [e])
    refine ⟨hm, hd, fun b hb hbd => dueOnOrBefore_of_dateLe (hwf a (hall a hm))
      (hwf b (hall b hb)) (hmin b hb hbd), ⟨pre, post, hl, hpre'⟩,
      ⟨post.reverse, pre.reverse, ?_, fun b hb => hpre' b (List.mem_reverse.mp hb)⟩⟩
    have := congrArg List.reverse hassign
    rw [List.reverse_reverse, hl] at this
    rw [← this]
    simp

theorem nextUp_tie_last_inserted_witness :
    (∀ b ∈ sampleTieRequests.filterMap recordOf, DueDateFrom100 b) ∧
    (∀ b ∈ (submitAll emptyState sampleTieRequests).assignments, b.done = false →
      DueOnOrBefore "1970-01-05" b.dueISO) ∧
    (∃ pre post, (submitAll emptyState sampleTieRequests).assignments =
        pre ++ ({ id := "z", title := "Quiz", course := "",
                  dueISO := "1970-01-05", done := false } : Assignment) :: post ∧
      ∀ b ∈ pre, b.dueISO ≠ "1970-01-05") ∧
    (∃ earlier later, sampleTieRequests.filterMap recordOf =
        earlier ++ ({ id := "z", title := "Quiz", course := "",
                      dueISO := "1970-01-05", done := false } : Assignment) :: later ∧
      ∀ b ∈ later, b.dueISO ≠ "1970-01-05") :=
  have hrec : sampleTieRequests.filterMap recordOf =
      [ { id := "x", title := "Essay", course := "", dueISO := "1970-01-09", done := false },
        { id := "y", title := "Lab", course := "", dueISO := "1970-01-05", done := false },
        { id := "z", title := "Quiz", course := "", dueISO := "1970-01-05", done := false } ] := by
    decide
  have hwf : ∀ b ∈ sampleTieRequests.filterMap recordOf, DueDateFrom100 b := by
    intro b hb
    rw [hrec] at hb
    simp only [List.mem_cons, List.mem_singleton, List.not_mem_nil, or_false] at hb
    rcases hb with rfl | rfl | rfl
    · exact ⟨1970, 1, 9, isISODate_1970_01_09, by decide⟩
    · exact ⟨1970, 1, 5, isISODate_1970_01_05, by decide⟩
    · exact ⟨1970, 1, 5, isISODate_1970_01_05, by decide⟩
  ⟨hwf, (nextUp_tie_last_inserted sampleTieRequests sampleNow
    { assignment := { id := "z", title := "Quiz", course := "",
                      dueISO := "1970-01-05", done := false },
      diffDays := some 2 } hwf (by decide)).2.2⟩

end VitaOS
